import Mathlib

/-!
Shallow embedding of the inventory fulfillment and stock-deduction engine of
the `framed` store-operations dashboard, together with proofs about it.

The embedding models the server routes (`process-order-stock`,
`orders/fulfillment-status`, `purchase-orders/:id/receive`,
`local-materials/:id/set-stock`, ...) and the storage layer
(`getMaterialMappingsForProduct`, `receivePurchaseOrderItems`, ...) as pure
functions over an explicit `EngineState`.  JavaScript peculiarities that are
semantically relevant are modelled explicitly:

* truthiness of nullable numeric ids (`0` and `null` are both falsy);
* the `x || 0` read of a nullable stock quantity;
* last-wins construction of `Map` objects;
* the storage layer's convention of returning `undefined` instead of an
  empty variation array (encoded here as the empty list, with explicit
  emptiness tests wherever the source tests `material.variations` for
  truthiness).

Asynchronous storage failures are not modelled: every storage call succeeds,
so the source's `failedUpdates` bucket is always empty and is omitted.
-/

namespace Framed

/-- JS truthiness of a nullable numeric id: `null`/`undefined` and `0` are falsy. -/
def truthy : Option Nat → Bool
  | none => false
  | some n => n != 0

/-- The JS idiom `x || null` applied to a nullable id: collapses the falsy id `0` to `null`. -/
def jsOrNull (x : Option Nat) : Option Nat :=
  if truthy x then x else none

/-- The JS idiom `x || 0` applied to a nullable stock quantity. -/
def stockOrZero : Option Int → Int
  | none => 0
  | some s => s

/-- A raw-material variation row (`raw_material_variations` table). -/
structure Variation where
  id : Nat
  woocommerceId : Option Nat
  name : String
  stockQuantity : Option Int
  manageStock : Bool
  isActive : Bool
deriving DecidableEq

/-- A raw-material row (`raw_materials` table) together with its variations,
as served by the storage layer.  `type` is `"simple"` or `"variable"`. -/
structure Material where
  id : Nat
  woocommerceId : Option Nat
  name : String
  type : String
  stockQuantity : Option Int
  manageStock : Bool
  isActive : Bool
  variations : List Variation
deriving DecidableEq

/-- A product-to-material mapping row (`material_product_mappings` table). -/
structure Mapping where
  productId : Nat
  variationId : Option Nat
  materialProductId : Nat
  materialVariationId : Option Nat
  quantityUsed : Nat
deriving DecidableEq

/-- A stock-ledger row (`stock_ledger` table). -/
structure LedgerEntry where
  id : Nat
  materialProductId : Nat
  materialVariationId : Option Nat
  orderId : Option Nat
  orderNumber : Option String
  quantityChange : Int
  previousStock : Int
  newStock : Int
  reason : String
  notes : String
deriving DecidableEq

/-- A processed-order marker row (`processed_orders` table). -/
structure ProcessedOrderRec where
  orderId : Nat
  orderNumber : String
deriving DecidableEq

/-- Purchase-order status enumeration. -/
inductive POStatus where
  | draft
  | ordered
  | partiallyReceived
  | received
  | cancelled
deriving DecidableEq

/-- A purchase-order line item (`purchase_order_items` table). -/
structure POItem where
  id : Nat
  materialProductId : Nat
  materialVariationId : Option Nat
  materialName : String
  quantityOrdered : Int
  quantityReceived : Int
deriving DecidableEq

/-- A purchase order (`purchase_orders` table) with its items.
`receivedDateSet` abstracts the nullable `receivedDate` timestamp to its
presence. -/
structure PurchaseOrder where
  id : Nat
  poNumber : String
  status : POStatus
  receivedDateSet : Bool
  items : List POItem
deriving DecidableEq

/-- The persistent state the engine reads and mutates. -/
structure EngineState where
  materials : List Material
  mappings : List Mapping
  ledger : List LedgerEntry
  processedOrders : List ProcessedOrderRec
  purchaseOrders : List PurchaseOrder
deriving DecidableEq

/-- A WooCommerce order line item as consumed by the engine. -/
structure LineItem where
  name : String
  product_id : Nat
  variation_id : Option Nat
  quantity : Nat
deriving DecidableEq

/-- A WooCommerce order as consumed by the fulfillment calculator. -/
structure Order where
  id : Nat
  status : String
  date_created : Nat
  line_items : List LineItem
deriving DecidableEq

/-! ### Storage layer -/

/-- Storage `getLocalRawMaterials()` (activeOnly defaulted to true): active materials
with their active variations attached.  The source substitutes `undefined`
for an empty variation array; the list encoding keeps `[]`, and every use
site tests emptiness exactly where the source tests truthiness. -/
def getLocalRawMaterials (st : EngineState) : List Material :=
  (st.materials.filter (·.isActive)).map fun m =>
    { m with variations := m.variations.filter (·.isActive) }

/-- Storage `getLocalRawMaterial(id)`: resolve a material by primary key (ignores `isActive`). -/
def getLocalRawMaterial (st : EngineState) (id : Nat) : Option Material :=
  st.materials.find? (fun m => m.id == id)

/-- Storage `getLocalRawMaterialVariation(id)`: resolve a variation by primary key, across all materials. -/
def getLocalRawMaterialVariation (st : EngineState) (id : Nat) : Option Variation :=
  ((st.materials.map (·.variations)).flatten).find? (fun v => v.id == id)

/-- Storage `updateLocalRawMaterialStock(id, newStock)`. -/
def updateLocalRawMaterialStock (st : EngineState) (id : Nat) (newStock : Int) : EngineState :=
  { st with materials := st.materials.map fun m =>
      if m.id = id then { m with stockQuantity := some newStock } else m }

/-- Storage `updateLocalRawMaterialVariationStock(id, newStock)`. -/
def updateLocalRawMaterialVariationStock (st : EngineState) (id : Nat) (newStock : Int) :
    EngineState :=
  { st with materials := st.materials.map fun m =>
      { m with variations := m.variations.map fun v =>
          if v.id = id then { v with stockQuantity := some newStock } else v } }

/-- The insert shape for `createStockLedgerEntry` (the id is assigned by the store). -/
structure InsertLedger where
  materialProductId : Nat
  materialVariationId : Option Nat
  orderId : Option Nat
  orderNumber : Option String
  quantityChange : Int
  previousStock : Int
  newStock : Int
  reason : String
  notes : String
deriving DecidableEq

/-- Storage `createStockLedgerEntry(entry)`: append one immutable ledger row and return it. -/
def createStockLedgerEntry (st : EngineState) (e : InsertLedger) : LedgerEntry × EngineState :=
  let entry : LedgerEntry :=
    ⟨st.ledger.length, e.materialProductId, e.materialVariationId, e.orderId, e.orderNumber,
      e.quantityChange, e.previousStock, e.newStock, e.reason, e.notes⟩
  (entry, { st with ledger := st.ledger ++ [entry] })

/-- Storage `getProcessedOrder(orderId)`. -/
def getProcessedOrder (st : EngineState) (orderId : Nat) : Option ProcessedOrderRec :=
  st.processedOrders.find? (fun p => p.orderId == orderId)

/-- Storage `markOrderProcessed` inserting one marker row. -/
def markOrderProcessed (st : EngineState) (orderId : Nat) (orderNumber : String) : EngineState :=
  { st with processedOrders := st.processedOrders ++ [⟨orderId, orderNumber⟩] }

/-- Storage `getMaterialMappingsForProduct(productId, variationId?)`: when the
`variationId` argument is truthy the query filters on both columns, otherwise
it returns every mapping for the product. -/
def getMaterialMappingsForProduct (mappings : List Mapping) (productId : Nat)
    (variationId : Option Nat) : List Mapping :=
  if truthy variationId then
    mappings.filter (fun m => m.productId == productId && m.variationId == variationId)
  else
    mappings.filter (fun m => m.productId == productId)

/-! ### JS `Map` construction and the ID normalizer -/

/-- Last-wins selection, the lookup behaviour of a JS `Map` built by one pass
over a list (later entries with the same key overwrite earlier ones). -/
def jsFind {α : Type} (f : α → Bool) (l : List α) : Option α :=
  l.foldl (fun acc a => if f a then some a else acc) none

/-- Lookup `materialsByLocalId.get(id)`. -/
def jsMapGet (ms : List Material) (k : Nat) : Option Material :=
  jsFind (fun m => m.id == k) ms

/-- Lookup `materialsByWooId.get(id)`. -/
def jsMapGetByWoo (ms : List Material) (k : Nat) : Option Material :=
  jsFind (fun m => m.woocommerceId == some k) ms

/-- Helper `findMaterial(id)`: by local id first, then by WooCommerce id. -/
def findMaterial (ms : List Material) (id : Nat) : Option Material :=
  (jsMapGet ms id).orElse (fun _ => jsMapGetByWoo ms id)

/-- Helper `normalizeId(id)`: canonicalize either id space to the local id, passing
unmatched ids through unchanged. -/
def normalizeId (ms : List Material) (id : Nat) : Nat :=
  match jsMapGet ms id with
  | some m => m.id
  | none =>
    match jsMapGetByWoo ms id with
    | some m => m.id
    | none => id

/-- Helper `normalizeVariationId(material, varId)`: falsy ids and materials without a
(served) variation list pass through; otherwise scan the variations for a
match on local or WooCommerce id. -/
def normalizeVariationId (material : Material) (varId : Option Nat) : Option Nat :=
  match varId with
  | none => none
  | some n =>
    if n = 0 then some n
    else if material.variations = [] then some n
    else
      match material.variations.find? (fun v => v.id == n || v.woocommerceId == some n) with
      | some v => some v.id
      | none => some n

/-! ### Generic fold lemmas used throughout -/

theorem foldl_preserve {α β : Type} {f : β → α → β} {P : β → Prop}
    (h : ∀ b a, P b → P (f b a)) : ∀ (l : List α) (b : β), P b → P (l.foldl f b) := by
  intro l
  induction l with
  | nil => intro b hb; exact hb
  | cons x xs ih => intro b hb; exact ih (f b x) (h b x hb)

theorem jsFind_aux {α : Type} {f : α → Bool} :
    ∀ (l : List α) (acc : Option α) (m : α),
      l.foldl (fun acc a => if f a then some a else acc) acc = some m →
      acc = some m ∨ (m ∈ l ∧ f m = true) := by
  intro l
  induction l with
  | nil => intro acc m h; exact Or.inl h
  | cons x xs ih =>
    intro acc m h
    rcases ih _ m h with h' | h'
    · by_cases hx : f x = true
      · simp [hx] at h'
        exact Or.inr ⟨by simp [h'], h' ▸ hx⟩
      · simp [hx] at h'
        exact Or.inl h'
    · exact Or.inr ⟨List.mem_cons_of_mem _ h'.1, h'.2⟩

theorem jsFind_eq_some {α : Type} {f : α → Bool} {l : List α} {m : α}
    (h : jsFind f l = some m) : m ∈ l ∧ f m = true := by
  rcases jsFind_aux l none m h with h' | h'
  · exact absurd h' (by simp)
  · exact h'

theorem jsFind_foldl_isSome {α : Type} {f : α → Bool} (xs : List α) (a : α) :
    (xs.foldl (fun acc a => if f a then some a else acc) (some a)).isSome :=
  foldl_preserve (f := fun acc a => if f a then some a else acc) (P := fun o => o.isSome)
    (by intro b a hb; by_cases hfa : f a = true <;> simp [hfa, hb]) xs (some a) (by simp)

theorem jsFind_isSome_of_mem {α : Type} {f : α → Bool} {l : List α} {m : α}
    (hm : m ∈ l) (hf : f m = true) : (jsFind f l).isSome := by
  induction l with
  | nil => cases hm
  | cons x xs ih =>
    rcases List.mem_cons.1 hm with rfl | hm'
    · show (List.foldl _ (if f m then some m else none) xs).isSome
      rw [hf]
      exact jsFind_foldl_isSome xs m
    · by_cases hx : f x = true
      · show (List.foldl _ (if f x then some x else none) xs).isSome
        rw [hx]
        exact jsFind_foldl_isSome xs x
      · have := ih hm'
        show (List.foldl _ (if f x then some x else none) xs).isSome
        simpa [hx] using this

theorem jsFind_eq_none {α : Type} {f : α → Bool} {l : List α}
    (h : ∀ a ∈ l, f a = false) : jsFind f l = none := by
  induction l with
  | nil => rfl
  | cons x xs ih =>
    show List.foldl _ (if f x then some x else none) xs = none
    rw [h x (by simp)]
    exact ih (fun a ha => h a (List.mem_cons_of_mem _ ha))

/-! ### Claim C9: `normalizeId` is idempotent -/

theorem jsMapGet_id {ms : List Material} {k : Nat} {m : Material}
    (h : jsMapGet ms k = some m) : m.id = k := by
  have := (jsFind_eq_some h).2
  simpa using this

theorem jsMapGet_mem {ms : List Material} {k : Nat} {m : Material}
    (h : jsMapGet ms k = some m) : m ∈ ms :=
  (jsFind_eq_some h).1

theorem jsMapGetByWoo_mem {ms : List Material} {k : Nat} {m : Material}
    (h : jsMapGetByWoo ms k = some m) : m ∈ ms :=
  (jsFind_eq_some h).1

theorem jsMapGet_isSome_self {ms : List Material} {m : Material} (hm : m ∈ ms) :
    (jsMapGet ms m.id).isSome :=
  jsFind_isSome_of_mem hm (by simp)

/-- normalizeId maps any id either to the local id of some stored material or
to itself. -/
theorem normalizeId_fixes_local {ms : List Material} {m : Material} (hm : m ∈ ms) :
    normalizeId ms m.id = m.id := by
  unfold normalizeId
  cases hget : jsMapGet ms m.id with
  | some m' => exact jsMapGet_id hget
  | none =>
    have := jsMapGet_isSome_self hm
    rw [hget] at this
    cases this

/-- Claim C9 (confirmed): for every id `x` — a canonical local material id, a
legacy external id, or an id matching neither space — `normalizeId` is
idempotent, with unmatched ids passed through unchanged. -/
theorem normalizeId_idempotent (ms : List Material) (x : Nat) :
    normalizeId ms (normalizeId ms x) = normalizeId ms x := by
  unfold normalizeId
  cases hget : jsMapGet ms x with
  | some m =>
    have hm : m ∈ ms := jsMapGet_mem hget
    have := normalizeId_fixes_local hm
    unfold normalizeId at this
    exact this
  | none =>
    cases hwoo : jsMapGetByWoo ms x with
    | some m =>
      have hm : m ∈ ms := jsMapGetByWoo_mem hwoo
      have := normalizeId_fixes_local hm
      unfold normalizeId at this
      exact this
    | none =>
      rw [hget, hwoo]

/-! ### Claim C5: mapping lookup for a product -/

/-- Claim C5 (amended, proved): membership in the result of
`getMaterialMappingsForProduct`.  When a truthy variation id is supplied the
match is exact on `(productId, variationId)`; when the line item carries no
(truthy) variation id, every mapping for the product is returned — including
variation-specific ones. -/
theorem getMaterialMappingsForProduct_mem (mappings : List Mapping) (pid : Nat)
    (vid : Option Nat) (m : Mapping) :
    m ∈ getMaterialMappingsForProduct mappings pid vid ↔
      m ∈ mappings ∧ m.productId = pid ∧ (truthy vid = true → m.variationId = vid) := by
  unfold getMaterialMappingsForProduct
  by_cases h : truthy vid = true
  · simp [h, List.mem_filter, and_assoc]
  · simp [h, List.mem_filter]

/-- A variation-specific mapping used in the C5 counterexample. -/
def c5mapping : Mapping := ⟨1, some 5, 9, none, 1⟩

/-- Claim C5 (counterexample): for a line item with no variation id, the
lookup used by the order stock processor returns the variation-specific
mapping rather than excluding it, so the claimed exact null-matching is
false. -/
theorem getMaterialMappingsForProduct_null_not_exact :
    getMaterialMappingsForProduct [c5mapping] 1 none = [c5mapping] ∧
      c5mapping.variationId ≠ none := by
  constructor
  · rfl
  · simp [c5mapping]

/-! ### Fulfillment calculator (`GET /api/orders/fulfillment-status`) -/

/-- A stock-pool key: the string key `"{materialId}-{variationId || 'null'}"`
of the source, represented injectively as a pair. -/
abbrev StockKey := Nat × Option Nat

/-- One entry of the `missingMaterials` array. -/
structure MissingMaterial where
  materialId : Nat
  variationId : Option Nat
  materialName : String
  needed : Nat
  available : Int
deriving DecidableEq

/-- The per-order fulfillment verdict. -/
structure FulfillmentEntry where
  canFulfill : Bool
  missingMaterials : List MissingMaterial
  isProcessed : Bool
deriving DecidableEq

/-- One value of the per-order `materialsNeeded` map. -/
structure NeededInfo where
  needed : Nat
  materialName : String
  materialId : Nat
  variationId : Option Nat
deriving DecidableEq

/-- The stock pool `materialsMap`, seeded from current stock under canonical
local ids: per-variation buckets plus a `null` bucket holding the variation
total for variable materials, or the material stock for the rest. -/
def buildMaterialsMap (materials : List Material) : StockKey → Int :=
  materials.foldl
    (fun pool m =>
      if m.type = "variable" ∧ m.variations ≠ [] then
        let seeded := m.variations.foldl
          (fun (acc : (StockKey → Int) × Int) v =>
            let stock := stockOrZero v.stockQuantity
            (fun k => if k = ((m.id, some v.id) : StockKey) then stock else acc.1 k,
             acc.2 + stock))
          (pool, 0)
        fun k => if k = ((m.id, none) : StockKey) then seeded.2 else seeded.1 k
      else
        fun k => if k = ((m.id, none) : StockKey) then stockOrZero m.stockQuantity else pool k)
    (fun _ => 0)

/-- Statuses that need fulfillment tracking. -/
def fulfillmentStatuses : List String := ["pending", "order-received", "production"]

/-- Stable insertion of an order into a list sorted by creation date:
an order is placed after every order with an earlier-or-equal date. -/
def insertByDate (o : Order) : List Order → List Order
  | [] => [o]
  | x :: xs => if o.date_created < x.date_created then o :: x :: xs else x :: insertByDate o xs

/-- Stable sort by `date_created` ascending (oldest first), the comparator
`(a, b) => dateA - dateB` of the source under the ES2019 stable-sort
guarantee. -/
def sortByDate (orders : List Order) : List Order :=
  orders.foldr insertByDate []

/-- The filtered and prioritized order queue the calculator iterates over. -/
def sortedOrders (orders : List Order) : List Order :=
  sortByDate (orders.filter (fun o => fulfillmentStatuses.contains o.status))

/-- Insert-or-accumulate into the `materialsNeeded` map (JS `Map` insertion
order preserved; an existing entry only has its `needed` increased). -/
def upsertNeeded (k : StockKey) (q : Nat) (name : String) (mid : Nat) (vid : Option Nat) :
    List (StockKey × NeededInfo) → List (StockKey × NeededInfo)
  | [] => [(k, ⟨q, name, mid, vid⟩)]
  | (k', info) :: rest =>
    if k' = k then (k', { info with needed := info.needed + q }) :: rest
    else (k', info) :: upsertNeeded k q name mid vid rest

/-- The display name carried with a needed-materials entry: parent name, or
`"parent - variation"` when a truthy variation id resolves. -/
def mappingDisplayName (material : Material) (mapping : Mapping) : String :=
  match mapping.materialVariationId with
  | none => material.name
  | some n =>
    if n = 0 then material.name
    else if material.variations = [] then material.name
    else
      match material.variations.find? (fun v => v.id == n || v.woocommerceId == some n) with
      | some v => material.name ++ " - " ++ v.name
      | none => material.name

/-- The `materialsNeeded` map of one order: normalized keys, quantities
accumulated mapping by mapping, orphaned mappings skipped. -/
def orderNeeds (materials : List Material) (allMappings : List Mapping) (order : Order) :
    List (StockKey × NeededInfo) :=
  order.line_items.foldl
    (fun needs item =>
      let productId := item.product_id
      let variationId := jsOrNull item.variation_id
      let itemMappings := allMappings.filter (fun m =>
        m.productId == productId &&
          (match variationId with
           | some v => m.variationId == some v
           | none => m.variationId == none))
      itemMappings.foldl
        (fun needs mapping =>
          match findMaterial materials mapping.materialProductId with
          | none => needs
          | some material =>
            let normalizedMaterialId := normalizeId materials mapping.materialProductId
            let normalizedVariationId := normalizeVariationId material mapping.materialVariationId
            let key : StockKey := (normalizedMaterialId, jsOrNull normalizedVariationId)
            let quantityNeeded := mapping.quantityUsed * item.quantity
            let materialName := mappingDisplayName material mapping
            upsertNeeded key quantityNeeded materialName normalizedMaterialId
              normalizedVariationId needs)
        needs)
    []

/-- The availability check of one order against the pool net of prior claims:
returns `canFulfill` and the `missingMaterials` shortfalls (with availability
clamped to be non-negative). -/
def checkNeeds (pool claimed : StockKey → Int) (needs : List (StockKey × NeededInfo)) :
    Bool × List MissingMaterial :=
  needs.foldl
    (fun (acc : Bool × List MissingMaterial) kv =>
      let availableStock := pool kv.1 - claimed kv.1
      if availableStock < (kv.2.needed : Int) then
        (false, acc.2 ++ [⟨kv.2.materialId, kv.2.variationId, kv.2.materialName, kv.2.needed,
          max 0 availableStock⟩])
      else acc)
    (true, [])

/-- Commit a fulfillable order's needs into the cumulative-usage map. -/
def commitNeeds (claimed : StockKey → Int) (needs : List (StockKey × NeededInfo)) :
    StockKey → Int :=
  needs.foldl (fun c kv => fun k => if k = kv.1 then c kv.1 + (kv.2.needed : Int) else c k) claimed

/-- The allocation loop over the prioritized order queue, threading the
cumulative-usage map and emitting one verdict per order. -/
def fulfillLoop (materials : List Material) (allMappings : List Mapping)
    (processedOrderIds : List Nat) (pool : StockKey → Int) :
    (StockKey → Int) → List Order → (StockKey → Int) × List (Nat × FulfillmentEntry)
  | claimed, [] => (claimed, [])
  | claimed, order :: rest =>
    if processedOrderIds.contains order.id then
      let r := fulfillLoop materials allMappings processedOrderIds pool claimed rest
      (r.1, (order.id, ⟨true, [], true⟩) :: r.2)
    else
      let needs := orderNeeds materials allMappings order
      let checked := checkNeeds pool claimed needs
      let claimed' := if checked.1 then commitNeeds claimed needs else claimed
      let r := fulfillLoop materials allMappings processedOrderIds pool claimed' rest
      (r.1, (order.id, ⟨checked.1, checked.2, false⟩) :: r.2)

/-- The full fulfillment-status pass: build the pool, filter and sort the
orders, then run the allocation loop from an empty usage map. -/
def fulfillmentStatus (materials : List Material) (allMappings : List Mapping)
    (processedOrderIds : List Nat) (orders : List Order) : List (Nat × FulfillmentEntry) :=
  (fulfillLoop materials allMappings processedOrderIds (buildMaterialsMap materials)
    (fun _ => 0) (sortedOrders orders)).2

/-! ### Claim C4: the concrete allocation scenario -/

/-- The managed material of the C4 scenario, with 10 units in stock. -/
def c4material : Material := ⟨1, none, "M", "simple", some 10, true, true, []⟩

/-- The mapping of the C4 scenario: product 100 consumes 2 units of material 1. -/
def c4mapping : Mapping := ⟨100, none, 1, none, 2⟩

/-- Order A of the C4 scenario: created on day 1, needs 6 units (3 × 2). -/
def c4orderA : Order := ⟨11, "pending", 1, [⟨"widget", 100, none, 3⟩]⟩

/-- Order B of the C4 scenario: created on day 2, needs 6 units (3 × 2). -/
def c4orderB : Order := ⟨22, "pending", 2, [⟨"widget", 100, none, 3⟩]⟩

/-- Claim C4 (confirmed): with 10 units in stock and two pending orders each
needing 6, the older order A is fulfillable, the newer order B is not and
reports exactly one shortfall with `needed = 6` and `available = 4`;
allocation is oldest-first (the orders are supplied newest-first here) and
all-or-nothing. -/
theorem fulfillment_allocation_scenario :
    fulfillmentStatus [c4material] [c4mapping] [] [c4orderB, c4orderA] =
      [(11, ⟨true, [], false⟩),
       (22, ⟨false, [⟨1, none, "M", 6, 4⟩], false⟩)] := by
  decide

/-! ### Claim C6: `manageStock = false` -/

/-- A material with stock management disabled and zero stock. -/
def c6material : Material := ⟨1, none, "M", "simple", some 0, false, true, []⟩

/-- A mapping of product 100 onto the unmanaged material. -/
def c6mapping : Mapping := ⟨100, none, 1, none, 2⟩

/-- A pending order consuming the unmanaged material. -/
def c6order : Order := ⟨5, "pending", 1, [⟨"widget", 100, none, 1⟩]⟩

/-- Claim C6 (counterexample): the fulfillment calculator ignores the
`manageStock` flag — an order whose only shortfall is on a material with
`manageStock = false` is reported unfulfillable, with that material listed,
contradicting the claim that stock checks always pass for such materials. -/
theorem fulfillment_ignores_manageStock :
    c6material.manageStock = false ∧
      fulfillmentStatus [c6material] [c6mapping] [] [c6order] =
        [(5, ⟨false, [⟨1, none, "M", 2, 0⟩], false⟩)] := by
  constructor
  · rfl
  · decide

/-! ### Claim C3: no double allocation -/

/-- The total quantity a needed-materials map requests for one stock key. -/
def needsLookup : List (StockKey × NeededInfo) → StockKey → Int
  | [], _ => 0
  | kv :: rest, k => (if kv.1 = k then (kv.2.needed : Int) else 0) + needsLookup rest k

/-- The total stock claimed for a key by the orders a fulfillment pass
reported fulfillable and not already processed, pairing each order of the
prioritized queue with its verdict. -/
def claimedTotal (materials : List Material) (allMappings : List Mapping) :
    List Order → List (Nat × FulfillmentEntry) → StockKey → Int
  | [], _, _ => 0
  | _ :: _, [], _ => 0
  | o :: os, r :: rs, k =>
    (if r.2.canFulfill && !r.2.isProcessed then
        needsLookup (orderNeeds materials allMappings o) k
      else 0) + claimedTotal materials allMappings os rs k

theorem needsLookup_nonneg (needs : List (StockKey × NeededInfo)) (k : StockKey) :
    0 ≤ needsLookup needs k := by
  induction needs with
  | nil => simp [needsLookup]
  | cons kv rest ih =>
    simp only [needsLookup]
    have h1 : (0 : Int) ≤ if kv.1 = k then (kv.2.needed : Int) else 0 := by
      split <;> simp
    omega

theorem commitNeeds_apply (needs : List (StockKey × NeededInfo)) :
    ∀ (claimed : StockKey → Int) (k : StockKey),
      commitNeeds claimed needs k = claimed k + needsLookup needs k := by
  induction needs with
  | nil => intro claimed k; simp [commitNeeds, needsLookup]
  | cons kv rest ih =>
    intro claimed k
    show commitNeeds (fun k => if k = kv.1 then claimed kv.1 + (kv.2.needed : Int) else claimed k)
        rest k = _
    rw [ih]
    simp only [needsLookup]
    by_cases hk : k = kv.1
    · subst hk
      simp only [if_pos rfl, if_true, eq_self_iff_true]
      omega
    · have hk' : ¬(kv.1 = k) := fun h => hk h.symm
      simp only [if_neg hk, if_neg hk']
      omega

theorem checkNeeds_fold_fst (pool claimed : StockKey → Int) :
    ∀ (needs : List (StockKey × NeededInfo)) (b : Bool) (miss : List MissingMaterial),
      (needs.foldl
        (fun (acc : Bool × List MissingMaterial) kv =>
          let availableStock := pool kv.1 - claimed kv.1
          if availableStock < (kv.2.needed : Int) then
            (false, acc.2 ++ [⟨kv.2.materialId, kv.2.variationId, kv.2.materialName, kv.2.needed,
              max 0 availableStock⟩])
          else acc)
        (b, miss)).1 =
      (b && needs.all (fun kv => !(pool kv.1 - claimed kv.1 < (kv.2.needed : Int) : Bool))) := by
  intro needs
  induction needs with
  | nil => intro b miss; simp
  | cons kv rest ih =>
    intro b miss
    simp only [List.foldl_cons, List.all_cons]
    by_cases h : pool kv.1 - claimed kv.1 < (kv.2.needed : Int)
    · simp only [h, if_pos, decide_eq_true h]
      rw [ih]
      simp
    · simp only [h, if_neg, decide_eq_false h]
      rw [ih]
      simp [h]

theorem checkNeeds_fst_true {pool claimed : StockKey → Int}
    {needs : List (StockKey × NeededInfo)} (h : (checkNeeds pool claimed needs).1 = true) :
    ∀ kv ∈ needs, (kv.2.needed : Int) ≤ pool kv.1 - claimed kv.1 := by
  intro kv hkv
  unfold checkNeeds at h
  rw [checkNeeds_fold_fst pool claimed needs true []] at h
  simp only [Bool.true_and, List.all_eq_true] at h
  have := h kv hkv
  simpa using this

/-- Keys of the needed-materials map after an upsert: unchanged when the key
was present, appended otherwise. -/
theorem upsertNeeded_keys (k : StockKey) (q : Nat) (name : String) (mid : Nat)
    (vid : Option Nat) :
    ∀ l : List (StockKey × NeededInfo),
      (upsertNeeded k q name mid vid l).map Prod.fst =
        if k ∈ l.map Prod.fst then l.map Prod.fst else l.map Prod.fst ++ [k] := by
  intro l
  induction l with
  | nil => simp [upsertNeeded]
  | cons kv rest ih =>
    rcases kv with ⟨k', info⟩
    by_cases hk : k' = k
    · simp [upsertNeeded, hk]
    · have hk' : ¬(k = k') := fun h => hk h.symm
      simp only [upsertNeeded, if_neg hk, List.map_cons, List.mem_cons]
      rw [ih]
      by_cases hmem : k ∈ rest.map Prod.fst
      · simp [hmem, hk']
      · simp [hmem, hk']

theorem upsertNeeded_keys_nodup (k : StockKey) (q : Nat) (name : String) (mid : Nat)
    (vid : Option Nat) (l : List (StockKey × NeededInfo))
    (h : (l.map Prod.fst).Nodup) :
    ((upsertNeeded k q name mid vid l).map Prod.fst).Nodup := by
  rw [upsertNeeded_keys]
  by_cases hmem : k ∈ l.map Prod.fst
  · simpa [hmem]
  · rw [if_neg hmem]
    rw [List.nodup_append]
    exact ⟨h, List.nodup_singleton k, by simpa using hmem⟩

/-- The needed-materials map of an order has pairwise-distinct keys. -/
theorem orderNeeds_keys_nodup (materials : List Material) (allMappings : List Mapping)
    (order : Order) :
    ((orderNeeds materials allMappings order).map Prod.fst).Nodup := by
  unfold orderNeeds
  apply foldl_preserve (P := fun needs : List (StockKey × NeededInfo) =>
    (needs.map Prod.fst).Nodup)
  · intro needs item h
    apply foldl_preserve (P := fun needs : List (StockKey × NeededInfo) =>
      (needs.map Prod.fst).Nodup)
    · intro needs' mapping h'
      cases findMaterial materials mapping.materialProductId with
      | none => exact h'
      | some material => exact upsertNeeded_keys_nodup _ _ _ _ _ _ h'
    · exact h
  · simp

theorem needsLookup_eq_zero {needs : List (StockKey × NeededInfo)} {k : StockKey}
    (h : ∀ kv ∈ needs, kv.1 ≠ k) : needsLookup needs k = 0 := by
  induction needs with
  | nil => rfl
  | cons kv rest ih =>
    simp only [needsLookup]
    rw [if_neg (h kv (by simp)), ih (fun kv' hkv' => h kv' (List.mem_cons_of_mem _ hkv'))]
    simp

theorem needsLookup_of_mem {needs : List (StockKey × NeededInfo)} {kv : StockKey × NeededInfo}
    (hnd : (needs.map Prod.fst).Nodup) (hmem : kv ∈ needs) :
    needsLookup needs kv.1 = (kv.2.needed : Int) := by
  induction needs with
  | nil => cases hmem
  | cons kv' rest ih =>
    simp only [List.map_cons, List.nodup_cons] at hnd
    rcases List.mem_cons.1 hmem with rfl | hmem'
    · simp only [needsLookup, if_pos rfl]
      have hz : ∀ x ∈ rest, x.1 ≠ kv.1 := by
        intro x hx heq
        apply hnd.1
        rw [← heq]
        exact List.mem_map_of_mem Prod.fst hx
      rw [needsLookup_eq_zero hz]
      simp
    · have hne : kv'.1 ≠ kv.1 := by
        intro heq
        exact hnd.1 (by rw [heq]; exact List.mem_map_of_mem Prod.fst hmem')
      simp only [needsLookup, if_neg hne]
      rw [ih hnd.2 hmem']
      simp

theorem needsLookup_pos_bound {pool claimed : StockKey → Int}
    {needs : List (StockKey × NeededInfo)} {k : StockKey}
    (hnd : (needs.map Prod.fst).Nodup)
    (hck : (checkNeeds pool claimed needs).1 = true)
    (hpos : 0 < needsLookup needs k) :
    claimed k + needsLookup needs k ≤ pool k := by
  by_cases hmem : ∃ kv ∈ needs, kv.1 = k
  · rcases hmem with ⟨kv, hkv, rfl⟩
    rw [needsLookup_of_mem hnd hkv]
    have := checkNeeds_fst_true hck kv hkv
    omega
  · push_neg at hmem
    rw [needsLookup_eq_zero hmem] at hpos
    omega

theorem fulfillLoop_cons_processed (materials : List Material) (allMappings : List Mapping)
    (processedIds : List Nat) (pool claimed : StockKey → Int) (order : Order)
    (rest : List Order) (hproc : processedIds.contains order.id = true) :
    fulfillLoop materials allMappings processedIds pool claimed (order :: rest) =
      ((fulfillLoop materials allMappings processedIds pool claimed rest).1,
       (order.id, ⟨true, [], true⟩) ::
         (fulfillLoop materials allMappings processedIds pool claimed rest).2) := by
  have h : order.id ∈ processedIds := by simpa using hproc
  simp [fulfillLoop, h]

theorem fulfillLoop_cons_not_processed (materials : List Material) (allMappings : List Mapping)
    (processedIds : List Nat) (pool claimed : StockKey → Int) (order : Order)
    (rest : List Order) (hproc : processedIds.contains order.id = false) :
    fulfillLoop materials allMappings processedIds pool claimed (order :: rest) =
      ((fulfillLoop materials allMappings processedIds pool
          (if (checkNeeds pool claimed (orderNeeds materials allMappings order)).1 then
            commitNeeds claimed (orderNeeds materials allMappings order)
          else claimed) rest).1,
       (order.id,
         ⟨(checkNeeds pool claimed (orderNeeds materials allMappings order)).1,
          (checkNeeds pool claimed (orderNeeds materials allMappings order)).2, false⟩) ::
         (fulfillLoop materials allMappings processedIds pool
          (if (checkNeeds pool claimed (orderNeeds materials allMappings order)).1 then
            commitNeeds claimed (orderNeeds materials allMappings order)
          else claimed) rest).2) := by
  have h : order.id ∉ processedIds := by simpa using hproc
  simp [fulfillLoop, h]

theorem fulfillLoop_main (materials : List Material) (allMappings : List Mapping)
    (processedIds : List Nat) (pool : StockKey → Int) :
    ∀ (orders : List Order) (claimed : StockKey → Int),
      (∀ k, 0 ≤ claimed k ∧ (claimed k = 0 ∨ claimed k ≤ pool k)) →
      (∀ k, 0 ≤ (fulfillLoop materials allMappings processedIds pool claimed orders).1 k ∧
          ((fulfillLoop materials allMappings processedIds pool claimed orders).1 k = 0 ∨
           (fulfillLoop materials allMappings processedIds pool claimed orders).1 k ≤ pool k)) ∧
        (∀ k, (fulfillLoop materials allMappings processedIds pool claimed orders).1 k =
          claimed k + claimedTotal materials allMappings orders
            (fulfillLoop materials allMappings processedIds pool claimed orders).2 k) ∧
        (∀ p ∈ orders.zip (fulfillLoop materials allMappings processedIds pool claimed orders).2,
          processedIds.contains p.1.id = true → p.2.2 = FulfillmentEntry.mk true [] true) := by
  intro orders
  induction orders with
  | nil =>
    intro claimed h
    refine ⟨fun k => h k, fun k => ?_, ?_⟩
    · simp [fulfillLoop, claimedTotal]
    · simp [fulfillLoop]
  | cons order rest ih =>
    intro claimed h
    by_cases hproc : processedIds.contains order.id = true
    · rw [fulfillLoop_cons_processed materials allMappings processedIds pool claimed order rest
        hproc]
      obtain ⟨ih1, ih2, ih3⟩ := ih claimed h
      refine ⟨fun k => ih1 k, fun k => ?_, ?_⟩
      · simpa [claimedTotal] using ih2 k
      · intro p hp
        rw [List.zip_cons_cons] at hp
        rcases List.mem_cons.1 hp with rfl | hp'
        · intro _; rfl
        · exact ih3 p hp'
    · have hproc' : processedIds.contains order.id = false := by
        simpa using hproc
      rw [fulfillLoop_cons_not_processed materials allMappings processedIds pool claimed order
        rest hproc']
      have hInv' : ∀ k,
          0 ≤ (if (checkNeeds pool claimed (orderNeeds materials allMappings order)).1 then
                commitNeeds claimed (orderNeeds materials allMappings order)
              else claimed) k ∧
          ((if (checkNeeds pool claimed (orderNeeds materials allMappings order)).1 then
                commitNeeds claimed (orderNeeds materials allMappings order)
              else claimed) k = 0 ∨
           (if (checkNeeds pool claimed (orderNeeds materials allMappings order)).1 then
                commitNeeds claimed (orderNeeds materials allMappings order)
              else claimed) k ≤ pool k) := by
        intro k
        by_cases hcf : (checkNeeds pool claimed (orderNeeds materials allMappings order)).1 = true
        · rw [if_pos hcf, commitNeeds_apply]
          have hnn := needsLookup_nonneg (orderNeeds materials allMappings order) k
          have h0 := (h k).1
          refine ⟨by omega, ?_⟩
          by_cases hz : needsLookup (orderNeeds materials allMappings order) k = 0
          · rw [hz]
            rcases (h k).2 with h2 | h2
            · exact Or.inl (by omega)
            · exact Or.inr (by omega)
          · have hpos : 0 < needsLookup (orderNeeds materials allMappings order) k := by omega
            have := needsLookup_pos_bound
              (orderNeeds_keys_nodup materials allMappings order) hcf hpos
            exact Or.inr this
        · rw [if_neg hcf]
          exact h k
      obtain ⟨ih1, ih2, ih3⟩ := ih _ hInv'
      refine ⟨fun k => ih1 k, fun k => ?_, ?_⟩
      · rw [ih2 k]
        simp only [claimedTotal, Bool.not_false, Bool.and_true]
        by_cases hcf : (checkNeeds pool claimed (orderNeeds materials allMappings order)).1 = true
        · rw [if_pos hcf] at *
          rw [hcf, if_pos rfl, commitNeeds_apply]
          omega
        · have hcf' : (checkNeeds pool claimed (orderNeeds materials allMappings order)).1 =
            false := by simpa using hcf
          rw [if_neg hcf] at *
          rw [hcf']
          simp
      · intro p hp
        rw [List.zip_cons_cons] at hp
        rcases List.mem_cons.1 hp with rfl | hp'
        · intro hcontr
          rw [hproc'] at hcontr
          cases hcontr
        · exact ih3 p hp'

/-- Claim C3 (amended, proved): after a full fulfillment-calculator pass,
for every stock-pool key the total claimed by orders reported fulfillable
(and not already processed) is bounded by the seeded pool clamped below at
zero; the running usage map is exactly that total, so unfulfillable orders
commit no partial claim; and every already-processed order is reported
`canFulfill = true` with no shortfalls and claims nothing. -/
theorem fulfillment_no_double_allocation (materials : List Material)
    (allMappings : List Mapping) (processedIds : List Nat) (orders : List Order) :
    (∀ k : StockKey,
        claimedTotal materials allMappings (sortedOrders orders)
            (fulfillmentStatus materials allMappings processedIds orders) k ≤
          max (buildMaterialsMap materials k) 0) ∧
    (∀ k : StockKey,
        (fulfillLoop materials allMappings processedIds (buildMaterialsMap materials)
            (fun _ => 0) (sortedOrders orders)).1 k =
          claimedTotal materials allMappings (sortedOrders orders)
            (fulfillmentStatus materials allMappings processedIds orders) k) ∧
    (∀ p ∈ (sortedOrders orders).zip
        (fulfillmentStatus materials allMappings processedIds orders),
      processedIds.contains p.1.id = true → p.2.2 = FulfillmentEntry.mk true [] true) := by
  obtain ⟨m1, m2, m3⟩ := fulfillLoop_main materials allMappings processedIds
    (buildMaterialsMap materials) (sortedOrders orders) (fun _ => 0)
    (fun k => ⟨le_refl 0, Or.inl rfl⟩)
  have heq : ∀ k, (fulfillLoop materials allMappings processedIds (buildMaterialsMap materials)
      (fun _ => 0) (sortedOrders orders)).1 k =
      claimedTotal materials allMappings (sortedOrders orders)
        (fulfillmentStatus materials allMappings processedIds orders) k := by
    intro k
    have := m2 k
    simpa [fulfillmentStatus] using this
  refine ⟨fun k => ?_, heq, ?_⟩
  · rw [← heq k]
    rcases (m1 k).2 with h | h
    · rw [h]; exact le_max_right _ _
    · exact le_trans h (le_max_left _ _)
  · intro p hp
    exact m3 p (by simpa [fulfillmentStatus] using hp)

/-- A material whose stock has gone negative through overselling. -/
def c3material : Material := ⟨1, none, "M", "simple", some (-5), true, true, []⟩

/-- A mapping of product 100 onto the oversold material. -/
def c3mapping : Mapping := ⟨100, none, 1, none, 3⟩

/-- A pending order requesting the oversold material. -/
def c3order : Order := ⟨7, "pending", 1, [⟨"widget", 100, none, 1⟩]⟩

/-- Claim C3 (counterexample): the pool is seeded with the raw (possibly
negative) `stockQuantity`; with a pool of `-5` no stock is claimed, yet the
claimed total `0` still exceeds the seeded pool, so the claimed inequality
`sum(allocated to fulfillable orders) <= pool` is false as stated. -/
theorem fulfillment_pool_counterexample :
    buildMaterialsMap [c3material] ((1, none) : StockKey) = -5 ∧
      claimedTotal [c3material] [c3mapping] (sortedOrders [c3order])
          (fulfillmentStatus [c3material] [c3mapping] [] [c3order]) ((1, none) : StockKey) = 0 ∧
      ¬(claimedTotal [c3material] [c3mapping] (sortedOrders [c3order])
          (fulfillmentStatus [c3material] [c3mapping] [] [c3order]) ((1, none) : StockKey) ≤
        buildMaterialsMap [c3material] ((1, none) : StockKey)) := by
  refine ⟨by decide, by decide, by decide⟩

/-! ### Order stock processor (`POST /api/process-order-stock`) -/

/-- One successful deduction in the processor's `results` array. -/
structure DeductionResult where
  materialId : Nat
  materialVariationId : Option Nat
  materialName : String
  previousStock : Int
  newStock : Int
  quantityDeducted : Nat
  ledgerEntryId : Nat
  lineItemName : String
deriving DecidableEq

/-- One entry of the processor's `skippedItems` array (the source's variants
carry a few extra display fields; the discriminating `reason` is kept). -/
structure SkippedItem where
  productId : Nat
  variationId : Option Nat
  name : String
  materialId : Nat
  reason : String
deriving DecidableEq

/-- One entry of the processor's `unmappedItems` array. -/
structure UnmappedItem where
  productId : Nat
  variationId : Option Nat
  name : String
  quantity : Nat
  reason : String
deriving DecidableEq

/-- The processor's loop accumulator: the evolving state plus the three
report buckets (`failedUpdates` is omitted — storage calls cannot fail in
this model). -/
structure ProcAcc where
  st : EngineState
  results : List DeductionResult
  skippedItems : List SkippedItem
  unmappedItems : List UnmappedItem
deriving DecidableEq

/-- The conflict signalled when the idempotency guard trips. -/
inductive ProcessError where
  | alreadyProcessed
deriving DecidableEq

/-- The processor's successful response body. -/
structure ProcessResponse where
  results : List DeductionResult
  unmappedItems : List UnmappedItem
  skippedItems : List SkippedItem
deriving DecidableEq

/-- The body of the processor's inner mapping loop: resolve the material from
the prefetched active-materials map by canonical local id, resolve the
variation when the mapping targets one, honour `manageStock`, then deduct and
write one ledger entry.  The aliasing of the source's in-memory `materialsMap`
with the persisted rows is modelled by re-deriving the served view from the
current state. -/
def processMapping (orderId : Nat) (orderNumber : String) (item : LineItem) (acc : ProcAcc)
    (mapping : Mapping) : ProcAcc :=
  match jsMapGet (getLocalRawMaterials acc.st) mapping.materialProductId with
  | none =>
    { acc with skippedItems := acc.skippedItems ++
        [⟨item.product_id, item.variation_id, item.name, mapping.materialProductId,
          "Material product no longer exists in inventory"⟩] }
  | some material =>
    let isVariationMapping := mapping.materialVariationId.isSome
    let variation : Option Variation :=
      if isVariationMapping ∧ material.variations ≠ [] then
        material.variations.find? (fun v => some v.id == mapping.materialVariationId)
      else none
    if isVariationMapping ∧ material.variations ≠ [] ∧ variation = none then
      { acc with skippedItems := acc.skippedItems ++
          [⟨item.product_id, item.variation_id, item.name, mapping.materialProductId,
            "Material variation no longer exists in inventory"⟩] }
    else
      let manageStock := match variation with
        | some v => v.manageStock
        | none => material.manageStock
      if manageStock = false then
        { acc with skippedItems := acc.skippedItems ++
            [⟨item.product_id, item.variation_id, item.name, mapping.materialProductId,
              "Material does not have stock management enabled"⟩] }
      else
        let quantityToDeduct := mapping.quantityUsed * item.quantity
        let previousStock := match variation with
          | some v => stockOrZero v.stockQuantity
          | none => stockOrZero material.stockQuantity
        let newStock := previousStock - (quantityToDeduct : Int)
        let displayName := match variation with
          | some v => material.name ++ " - " ++ v.name
          | none => material.name
        let st1 := match variation, mapping.materialVariationId with
          | some _, some vid => updateLocalRawMaterialVariationStock acc.st vid newStock
          | _, _ => updateLocalRawMaterialStock acc.st mapping.materialProductId newStock
        let created := createStockLedgerEntry st1
          ⟨mapping.materialProductId, jsOrNull mapping.materialVariationId, some orderId,
            some orderNumber, -(quantityToDeduct : Int), previousStock, newStock, "order",
            "Order #" ++ orderNumber ++ " - " ++ item.name ++ " x" ++ toString item.quantity⟩
        { st := created.2,
          results := acc.results ++
            [⟨mapping.materialProductId, jsOrNull mapping.materialVariationId, displayName,
              previousStock, newStock, quantityToDeduct, created.1.id, item.name⟩],
          skippedItems := acc.skippedItems,
          unmappedItems := acc.unmappedItems }

/-- The body of the processor's line-item loop: resolve the mappings for the
item, recording the item as unmapped when none exist. -/
def processLineItem (orderId : Nat) (orderNumber : String) (acc : ProcAcc) (item : LineItem) :
    ProcAcc :=
  let mappings := getMaterialMappingsForProduct acc.st.mappings item.product_id item.variation_id
  if mappings = [] then
    { acc with unmappedItems := acc.unmappedItems ++
        [⟨item.product_id, item.variation_id, item.name, item.quantity,
          "No material mapping found for this product/variation"⟩] }
  else
    mappings.foldl (processMapping orderId orderNumber item) acc

/-- The `POST /api/process-order-stock` route: fail fast on the idempotency
guard, otherwise deduct per line item and mapping and finally mark the order
processed. -/
def processOrderStock (st : EngineState) (orderId : Nat) (orderNumber : String)
    (lineItems : List LineItem) : Except ProcessError ProcessResponse × EngineState :=
  match getProcessedOrder st orderId with
  | some _ => (.error .alreadyProcessed, st)
  | none =>
    let acc := lineItems.foldl (processLineItem orderId orderNumber) ⟨st, [], [], []⟩
    let st' := markOrderProcessed acc.st orderId orderNumber
    (.ok ⟨acc.results, acc.unmappedItems, acc.skippedItems⟩, st')

/-! ### Frame lemmas for the processor -/

theorem processMapping_frame (orderId : Nat) (orderNumber : String) (item : LineItem)
    (acc : ProcAcc) (mapping : Mapping) :
    (processMapping orderId orderNumber item acc mapping).st.processedOrders =
        acc.st.processedOrders ∧
      (processMapping orderId orderNumber item acc mapping).st.mappings = acc.st.mappings ∧
      (processMapping orderId orderNumber item acc mapping).st.purchaseOrders =
        acc.st.purchaseOrders := by
  refine ⟨?_, ?_, ?_⟩ <;>
    (unfold processMapping
     split
     · rfl
     · dsimp only
       repeat' split
       all_goals
         simp [createStockLedgerEntry, updateLocalRawMaterialVariationStock,
           updateLocalRawMaterialStock])

theorem processLineItem_frame (orderId : Nat) (orderNumber : String) (acc : ProcAcc)
    (item : LineItem) :
    (processLineItem orderId orderNumber acc item).st.processedOrders =
        acc.st.processedOrders ∧
      (processLineItem orderId orderNumber acc item).st.mappings = acc.st.mappings ∧
      (processLineItem orderId orderNumber acc item).st.purchaseOrders =
        acc.st.purchaseOrders := by
  have hfold : ∀ (maps : List Mapping),
      (maps.foldl (processMapping orderId orderNumber item) acc).st.processedOrders =
          acc.st.processedOrders ∧
        (maps.foldl (processMapping orderId orderNumber item) acc).st.mappings =
          acc.st.mappings ∧
        (maps.foldl (processMapping orderId orderNumber item) acc).st.purchaseOrders =
          acc.st.purchaseOrders := by
    intro maps
    exact foldl_preserve (P := fun a : ProcAcc =>
      a.st.processedOrders = acc.st.processedOrders ∧ a.st.mappings = acc.st.mappings ∧
        a.st.purchaseOrders = acc.st.purchaseOrders)
      (by
        intro a m h
        obtain ⟨f1, f2, f3⟩ := processMapping_frame orderId orderNumber item a m
        exact ⟨f1.trans h.1, f2.trans h.2.1, f3.trans h.2.2⟩)
      maps acc ⟨rfl, rfl, rfl⟩
  refine ⟨?_, ?_, ?_⟩ <;>
    (unfold processLineItem
     dsimp only
     split
     · rfl
     · first
       | exact (hfold _).1
       | exact (hfold _).2.1
       | exact (hfold _).2.2)

theorem processFold_frame (orderId : Nat) (orderNumber : String) (st : EngineState)
    (lineItems : List LineItem) :
    (lineItems.foldl (processLineItem orderId orderNumber)
        (⟨st, [], [], []⟩ : ProcAcc)).st.processedOrders = st.processedOrders := by
  have := foldl_preserve (P := fun a : ProcAcc => a.st.processedOrders = st.processedOrders)
    (by
      intro a item h
      obtain ⟨f1, _, _⟩ := processLineItem_frame orderId orderNumber a item
      exact f1.trans h)
    lineItems (⟨st, [], [], []⟩ : ProcAcc) rfl
  exact this

/-! ### Claim C1: idempotency guard -/

/-- Claim C1 (confirmed): a process-order-stock call for an order id with an
existing processed-order record fails with the `alreadyProcessed` conflict and
returns the state unchanged — no stock mutation, no additional ledger
entries; and the processor preserves uniqueness of processed-order records
per order id (the marker is only appended after the guard found none). -/
theorem processOrderStock_idempotency (st : EngineState) (orderId : Nat)
    (orderNumber : String) (lineItems : List LineItem) :
    ((getProcessedOrder st orderId).isSome = true →
      processOrderStock st orderId orderNumber lineItems = (.error .alreadyProcessed, st)) ∧
    ((st.processedOrders.map (·.orderId)).Nodup →
      (((processOrderStock st orderId orderNumber lineItems).2).processedOrders.map
        (·.orderId)).Nodup) := by
  constructor
  · intro h
    unfold processOrderStock
    cases hm : getProcessedOrder st orderId with
    | none => rw [hm] at h; cases h
    | some p => rfl
  · intro hnd
    unfold processOrderStock
    cases hm : getProcessedOrder st orderId with
    | some p => exact hnd
    | none =>
      have hnotmem : orderId ∉ st.processedOrders.map (·.orderId) := by
        intro hmem
        rcases List.mem_map.1 hmem with ⟨p, hp, hpid⟩
        have := List.find?_eq_none.1 hm p hp
        simp [hpid] at this
      dsimp only
      rw [markOrderProcessed]
      rw [processFold_frame]
      rw [List.map_append, List.nodup_append]
      refine ⟨hnd, by simp, ?_⟩
      intro a ha hb
      simp only [List.map_cons, List.map_nil, List.mem_singleton] at hb
      subst hb
      exact hnotmem ha

/-- A state holding exactly one processed-order marker, for the C1 witness. -/
def c1state : EngineState := ⟨[], [], [], [⟨5, "A"⟩], []⟩

/-- Witness for C1: at a state whose order 5 is already processed, the call is
rejected with the conflict and the state is returned unchanged, and
uniqueness of markers is preserved. -/
theorem processOrderStock_idempotency_witness :
    (getProcessedOrder c1state 5).isSome = true ∧
      processOrderStock c1state 5 "A" [] = (.error .alreadyProcessed, c1state) ∧
      (((processOrderStock c1state 5 "A" []).2).processedOrders.map (·.orderId)).Nodup :=
  ⟨by decide,
   (processOrderStock_idempotency c1state 5 "A" []).1 (by decide),
   (processOrderStock_idempotency c1state 5 "A" []).2 (by decide)⟩

/-! ### Claim C10: canonical-id-only resolution in the processor -/

/-- Claim C10 (confirmed): the processor resolves materials only through the
map of active materials keyed by canonical local id — a mapping whose
`materialProductId` misses that map (an external id, or a soft-deleted
material) is recorded in `skippedItems` with the "no longer exists" reason
and causes no deduction and no ledger entry; any id that is not the local id
of an active material misses the map; the order is still marked processed at
the end of a non-conflicting run; and the fulfillment calculator's
`findMaterial`, by contrast, also resolves WooCommerce ids. -/
theorem processOrderStock_canonical_resolution :
    (∀ (orderId : Nat) (orderNumber : String) (item : LineItem) (acc : ProcAcc)
        (mapping : Mapping),
      jsMapGet (getLocalRawMaterials acc.st) mapping.materialProductId = none →
      processMapping orderId orderNumber item acc mapping =
        { acc with skippedItems := acc.skippedItems ++
            [⟨item.product_id, item.variation_id, item.name, mapping.materialProductId,
              "Material product no longer exists in inventory"⟩] }) ∧
    (∀ (st : EngineState) (mid : Nat),
      (∀ m ∈ st.materials, m.isActive = true → m.id ≠ mid) →
      jsMapGet (getLocalRawMaterials st) mid = none) ∧
    (∀ (st : EngineState) (orderId : Nat) (orderNumber : String) (lineItems : List LineItem),
      getProcessedOrder st orderId = none →
      ((processOrderStock st orderId orderNumber lineItems).2).processedOrders =
        st.processedOrders ++ [⟨orderId, orderNumber⟩]) ∧
    (∀ (ms : List Material) (w : Nat) (m : Material),
      m ∈ ms → m.woocommerceId = some w → (findMaterial ms w).isSome = true) := by
  refine ⟨?_, ?_, ?_, ?_⟩
  · intro orderId orderNumber item acc mapping hnone
    unfold processMapping
    rw [hnone]
  · intro st mid h
    apply jsFind_eq_none
    intro a ha
    rcases List.mem_map.1 ha with ⟨m, hmem, rfl⟩
    rcases List.mem_filter.1 hmem with ⟨hm, hact⟩
    simpa using h m hm hact
  · intro st orderId orderNumber lineItems hnone
    unfold processOrderStock
    rw [hnone]
    dsimp only
    rw [markOrderProcessed, processFold_frame]
  · intro ms w m hmem hwoo
    unfold findMaterial
    cases hl : jsMapGet ms w with
    | some m' => simp [Option.orElse]
    | none =>
      have : (jsMapGetByWoo ms w).isSome :=
        jsFind_isSome_of_mem hmem (by simp [hwoo])
      cases hw : jsMapGetByWoo ms w with
      | none => rw [hw] at this; cases this
      | some m' => simp [Option.orElse, hw]

/-- A soft-deleted material for the C10 witness. -/
def c10material : Material := ⟨3, some 7, "Gone", "simple", some 4, true, false, []⟩

/-- A state for the C10 witness: an inactive material and one mapping
pointing at it. -/
def c10state : EngineState := ⟨[c10material], [⟨100, none, 3, none, 1⟩], [], [], []⟩

/-- Witness for C10: a mapping onto the soft-deleted material 3 misses the
processor's active-materials map and is recorded as skipped; a full run still
marks the order processed; and `findMaterial` resolves a WooCommerce id. -/
theorem processOrderStock_canonical_resolution_witness :
    jsMapGet (getLocalRawMaterials c10state) 3 = none ∧
      processMapping 9 "900" ⟨"w", 100, none, 1⟩ (⟨c10state, [], [], []⟩ : ProcAcc)
          ⟨100, none, 3, none, 1⟩ =
        { st := c10state, results := [],
          skippedItems := [⟨100, none, "w", 3,
            "Material product no longer exists in inventory"⟩],
          unmappedItems := [] } ∧
      ((processOrderStock c10state 9 "900" []).2).processedOrders = [⟨9, "900"⟩] ∧
      (findMaterial [c10material] 7).isSome = true :=
  ⟨(processOrderStock_canonical_resolution).2.1 c10state 3 (by decide),
   (processOrderStock_canonical_resolution).1 9 "900" ⟨"w", 100, none, 1⟩
     (⟨c10state, [], [], []⟩ : ProcAcc) ⟨100, none, 3, none, 1⟩ (by decide),
   (processOrderStock_canonical_resolution).2.2.1 c10state 9 "900" [] (by decide),
   (processOrderStock_canonical_resolution).2.2.2 [c10material] 7 c10material (by decide)
     (by decide)⟩

/-! ### Claim C6 (amended): `manageStock = false` in the processor -/

/-- Claim C6 (amended, proved): in the order stock processor, a resolved
material (or resolved variation) whose effective `manageStock` flag is false
is recorded in `skippedItems` with the "stock management enabled" reason and
causes no deduction and no ledger entry, regardless of its stock level; the
fulfillment calculator, by contrast, ignores the flag (see the
counterexample). -/
theorem processMapping_manageStock_skip (orderId : Nat) (orderNumber : String)
    (item : LineItem) (acc : ProcAcc) (mapping : Mapping) (material : Material)
    (hm : jsMapGet (getLocalRawMaterials acc.st) mapping.materialProductId = some material)
    (hskip :
      (mapping.materialVariationId = none ∧ material.manageStock = false) ∨
      (∃ v, mapping.materialVariationId.isSome = true ∧ material.variations ≠ [] ∧
        material.variations.find? (fun x => some x.id == mapping.materialVariationId) =
          some v ∧ v.manageStock = false)) :
    processMapping orderId orderNumber item acc mapping =
      { acc with skippedItems := acc.skippedItems ++
          [⟨item.product_id, item.variation_id, item.name, mapping.materialProductId,
            "Material does not have stock management enabled"⟩] } := by
  unfold processMapping
  rw [hm]
  rcases hskip with ⟨h1, h2⟩ | ⟨v, hsome, hne, hfind, hms⟩
  · simp [h1, h2]
  · simp [hsome, hne, hfind, hms]

/-- An unmanaged variation for the C6 witness. -/
def c6variation : Variation := ⟨8, none, "Blue", some 3, false, true⟩

/-- A variable material owning the unmanaged variation, for the C6 witness. -/
def c6parent : Material := ⟨2, none, "P", "variable", none, true, true, [c6variation]⟩

/-- A state for the C6 witness: the unmanaged simple material and the
variable material with an unmanaged variation. -/
def c6state : EngineState :=
  ⟨[c6material, c6parent], [c6mapping, ⟨101, none, 2, some 8, 1⟩], [], [], []⟩

/-- Witness for the amended C6: both the parent-level mapping onto the
unmanaged simple material and the variation-level mapping onto the unmanaged
variation are recorded as skipped, with the state unchanged. -/
theorem processMapping_manageStock_skip_witness :
    processMapping 1 "100" ⟨"w", 100, none, 1⟩ (⟨c6state, [], [], []⟩ : ProcAcc) c6mapping =
        { st := c6state, results := [],
          skippedItems := [⟨100, none, "w", 1,
            "Material does not have stock management enabled"⟩],
          unmappedItems := [] } ∧
      processMapping 1 "100" ⟨"w", 101, none, 1⟩ (⟨c6state, [], [], []⟩ : ProcAcc)
          ⟨101, none, 2, some 8, 1⟩ =
        { st := c6state, results := [],
          skippedItems := [⟨101, none, "w", 2,
            "Material does not have stock management enabled"⟩],
          unmappedItems := [] } :=
  ⟨processMapping_manageStock_skip 1 "100" ⟨"w", 100, none, 1⟩
      (⟨c6state, [], [], []⟩ : ProcAcc) c6mapping c6material (by decide)
      (Or.inl ⟨rfl, rfl⟩),
   processMapping_manageStock_skip 1 "100" ⟨"w", 101, none, 1⟩
      (⟨c6state, [], [], []⟩ : ProcAcc) ⟨101, none, 2, some 8, 1⟩ c6parent (by decide)
      (Or.inr ⟨c6variation, by decide, by decide, by decide, rfl⟩)⟩

/-! ### Claim C2: the ledger-consistency invariant -/

/-- The most recent ledger entry for a `(material, variation)` key (ledger
rows are appended in creation order). -/
def latestEntryFor (ledger : List LedgerEntry) (mid : Nat) (vid : Option Nat) :
    Option LedgerEntry :=
  (ledger.filter (fun e => e.materialProductId == mid && e.materialVariationId == vid)).getLast?

/-- The current stock level backing a ledger key: the material's
`stockQuantity` for a parent key, the variation's for a variation key, `none`
when no such row exists. -/
def cellValue (st : EngineState) (mid : Nat) (vid : Option Nat) : Option Int :=
  match vid with
  | none =>
    (st.materials.find? (fun m => m.id == mid)).map (fun m => stockOrZero m.stockQuantity)
  | some v =>
    match st.materials.find? (fun m => m.id == mid) with
    | none => none
    | some m =>
      (m.variations.find? (fun x => x.id == v)).map (fun x => stockOrZero x.stockQuantity)

/-- Every ledger row satisfies `newStock = previousStock + quantityChange`. -/
def entriesOkB (st : EngineState) : Bool :=
  st.ledger.all fun e => e.newStock == e.previousStock + e.quantityChange

/-- The ledger-consistency invariant: for every key with ledger history and a
backing stock cell, the cell equals the `newStock` of the key's most recent
ledger entry. -/
def ledgerConsistentB (st : EngineState) : Bool :=
  st.ledger.all fun e =>
    match latestEntryFor st.ledger e.materialProductId e.materialVariationId,
        cellValue st e.materialProductId e.materialVariationId with
    | some last, some s => if last == e then s == e.newStock else true
    | _, _ => true

/-- The C2 failing state: material 5 has no (active) variations, one prior
consistent ledger entry, and a mapping that targets variation 7 of
material 5. -/
def c2material : Material := ⟨5, none, "M", "simple", some 10, true, true, []⟩

/-- The mapping of the C2 failing input: product 1 consumes 2 units of
variation 7 of material 5. -/
def c2mapping : Mapping := ⟨1, none, 5, some 7, 2⟩

/-- The prior ledger row of the C2 failing input, recording stock 10 for the
parent key of material 5. -/
def c2entry : LedgerEntry := ⟨0, 5, none, none, none, 10, 0, 10, "manual", ""⟩

/-- The C2 failing state. -/
def c2state : EngineState := ⟨[c2material], [c2mapping], [c2entry], [], []⟩

/-- The line item of the C2 failing input. -/
def c2item : LineItem := ⟨"X", 1, none, 1⟩

/-- Claim C2 (code bug): on a consistent state, processing an order through a
variation-specific mapping whose material has no active variations deducts
the PARENT's stock (10 → 8) but writes the ledger entry under the missing
variation's key, so the parent key's most recent ledger entry still says 10
while `stockQuantity` is 8 — the mutation's ledger entry is keyed to a target
other than the one whose stock it changed, violating the invariant that
`stockQuantity` equals the `newStock` of the key's most recent entry (the
per-row arithmetic `newStock = previousStock + quantityChange` still holds). -/
theorem processOrderStock_ledger_inconsistency :
    ledgerConsistentB c2state = true ∧
      cellValue ((processOrderStock c2state 42 "1001" [c2item]).2) 5 none = some 8 ∧
      (latestEntryFor ((processOrderStock c2state 42 "1001" [c2item]).2).ledger 5 none).map
          (·.newStock) = some 10 ∧
      entriesOkB ((processOrderStock c2state 42 "1001" [c2item]).2) = true ∧
      ledgerConsistentB ((processOrderStock c2state 42 "1001" [c2item]).2) = false := by
  refine ⟨by decide, by decide, by decide, by decide, by decide⟩

/-! ### Purchase-order receiving (`POST /api/purchase-orders/:id/receive`) -/

/-- Storage `getPurchaseOrder(id)`. -/
def getPurchaseOrder (st : EngineState) (id : Nat) : Option PurchaseOrder :=
  st.purchaseOrders.find? (fun po => po.id == id)

/-- The storage layer's direct select of a PO line item by primary key. -/
def getPurchaseOrderItem (st : EngineState) (itemId : Nat) : Option POItem :=
  ((st.purchaseOrders.map (·.items)).flatten).find? (fun i => i.id == itemId)

/-- The storage layer's update of a PO line item's `quantityReceived` by
primary key. -/
def updatePOItemReceived (st : EngineState) (itemId : Nat) (qty : Int) : EngineState :=
  { st with purchaseOrders := st.purchaseOrders.map fun po =>
      { po with items := po.items.map fun i =>
          if i.id = itemId then { i with quantityReceived := qty } else i } }

/-- The storage layer's update of a PO's status and `receivedDate`. -/
def setPOStatus (st : EngineState) (poId : Nat) (status : POStatus) (receivedDateSet : Bool) :
    EngineState :=
  { st with purchaseOrders := st.purchaseOrders.map fun po =>
      if po.id = poId then { po with status := status, receivedDateSet := receivedDateSet }
      else po }

/-- Storage `receivePurchaseOrderItems(purchaseOrderId, itemReceipts)`: increment each
receipted item's `quantityReceived` (re-reading the row each time), then
recompute the PO status — `received` when every line is complete (stamping
`receivedDate`), else `partially_received` when anything has been received,
else unchanged. -/
def receivePurchaseOrderItems (st0 : EngineState) (purchaseOrderId : Nat)
    (itemReceipts : List (Nat × Int)) : EngineState :=
  let st1 := itemReceipts.foldl
    (fun (s : EngineState) (r : Nat × Int) =>
      match getPurchaseOrderItem s r.1 with
      | some item =>
        if r.2 > 0 then updatePOItemReceived s r.1 (item.quantityReceived + r.2) else s
      | none => s) st0
  match getPurchaseOrder st1 purchaseOrderId with
  | none => st1
  | some po =>
    let allReceived := po.items.all (fun i => decide (i.quantityOrdered ≤ i.quantityReceived))
    let someReceived := po.items.any (fun i => decide (0 < i.quantityReceived))
    let newStatus := if allReceived then POStatus.received
      else if someReceived then POStatus.partiallyReceived else po.status
    if newStatus ≠ po.status then setPOStatus st1 purchaseOrderId newStatus allReceived else st1

/-- One entry of the receive endpoint's `results` array. -/
structure ReceiveResultItem where
  itemId : Nat
  materialName : String
  quantityReceived : Int
  previousStock : Int
  newStock : Int
deriving DecidableEq

/-- The errors the receive endpoint can signal. -/
inductive ReceiveError where
  | notFound
  | cancelledOrder
  | alreadyReceived
deriving DecidableEq

/-- The receive endpoint's loop accumulator. -/
structure ReceiveAcc where
  st : EngineState
  results : List ReceiveResultItem
  validatedReceipts : List (Nat × Int)
deriving DecidableEq

/-- The body of the receive endpoint's receipt loop: look the item up in the
PO snapshot fetched at the start of the call, clamp the requested quantity to
what remains open on that snapshot, silently skip non-positive amounts, then
increment stock and append a ledger entry for the clamped amount. -/
def receiveStep (order : PurchaseOrder) (acc : ReceiveAcc) (receipt : Nat × Int) : ReceiveAcc :=
  match order.items.find? (fun i => i.id == receipt.1) with
  | none => acc
  | some item =>
    if receipt.2 ≤ 0 then acc
    else
      let remainingToReceive := item.quantityOrdered - item.quantityReceived
      let quantityToReceive := min receipt.2 remainingToReceive
      if quantityToReceive ≤ 0 then acc
      else
        let validated := acc.validatedReceipts ++ [(receipt.1, quantityToReceive)]
        if truthy item.materialVariationId then
          let variation := getLocalRawMaterialVariation acc.st
            (item.materialVariationId.getD 0)
          let previousStock := stockOrZero (variation.bind (·.stockQuantity))
          let newStock := previousStock + quantityToReceive
          let st1 := updateLocalRawMaterialVariationStock acc.st
            (item.materialVariationId.getD 0) newStock
          let created := createStockLedgerEntry st1
            ⟨item.materialProductId, item.materialVariationId, none, some order.poNumber,
              quantityToReceive, previousStock, newStock, "purchase_order",
              "PO " ++ order.poNumber ++ " - " ++ item.materialName ++ " received"⟩
          { st := created.2,
            results := acc.results ++
              [⟨item.id, item.materialName, quantityToReceive, previousStock, newStock⟩],
            validatedReceipts := validated }
        else
          let material := getLocalRawMaterial acc.st item.materialProductId
          let previousStock := stockOrZero (material.bind (·.stockQuantity))
          let newStock := previousStock + quantityToReceive
          let st1 := updateLocalRawMaterialStock acc.st item.materialProductId newStock
          let created := createStockLedgerEntry st1
            ⟨item.materialProductId, none, none, some order.poNumber,
              quantityToReceive, previousStock, newStock, "purchase_order",
              "PO " ++ order.poNumber ++ " - " ++ item.materialName ++ " received"⟩
          { st := created.2,
            results := acc.results ++
              [⟨item.id, item.materialName, quantityToReceive, previousStock, newStock⟩],
            validatedReceipts := validated }

/-- The `POST /api/purchase-orders/:id/receive` route: reject cancelled or
fully received orders outright, clamp and apply each receipt against the
initial snapshot, then hand the clamped amounts to the storage layer. -/
def receiveItems (st : EngineState) (id : Nat) (receipts : List (Nat × Int)) :
    Except ReceiveError (List ReceiveResultItem) × EngineState :=
  match getPurchaseOrder st id with
  | none => (.error .notFound, st)
  | some order =>
    if order.status = POStatus.cancelled then (.error .cancelledOrder, st)
    else if order.status = POStatus.received then (.error .alreadyReceived, st)
    else
      let acc := receipts.foldl (receiveStep order) ⟨st, [], []⟩
      let st' := receivePurchaseOrderItems acc.st id acc.validatedReceipts
      (.ok acc.results, st')

/-- The forward progression of PO statuses through receiving. -/
def statusRank : POStatus → Nat
  | .draft => 0
  | .ordered => 1
  | .partiallyReceived => 2
  | .received => 3
  | .cancelled => 4

/-! ### Lemmas about the receive endpoint -/

theorem receiveStep_purchaseOrders (order : PurchaseOrder) (acc : ReceiveAcc)
    (receipt : Nat × Int) :
    (receiveStep order acc receipt).st.purchaseOrders = acc.st.purchaseOrders := by
  unfold receiveStep
  dsimp only
  repeat' split
  all_goals
    simp [createStockLedgerEntry, updateLocalRawMaterialVariationStock,
      updateLocalRawMaterialStock]

/-- The clamped receipts the endpoint loop accumulates, as a function of the
PO snapshot and the raw receipts. -/
def validatedOf (items : List POItem) : List (Nat × Int) → List (Nat × Int)
  | [] => []
  | r :: rest =>
    match items.find? (fun i => i.id == r.1) with
    | none => validatedOf items rest
    | some item =>
      if r.2 ≤ 0 then validatedOf items rest
      else
        if min r.2 (item.quantityOrdered - item.quantityReceived) ≤ 0 then
          validatedOf items rest
        else (r.1, min r.2 (item.quantityOrdered - item.quantityReceived)) ::
          validatedOf items rest

theorem receiveStep_validated_one (order : PurchaseOrder) (acc : ReceiveAcc) (r : Nat × Int) :
    (receiveStep order acc r).validatedReceipts =
      acc.validatedReceipts ++ validatedOf order.items [r] := by
  unfold receiveStep
  cases hfind : order.items.find? (fun i => i.id == r.1) with
  | none => simp [validatedOf, hfind]
  | some item =>
    simp only [validatedOf, hfind]
    by_cases h2 : r.2 ≤ 0
    · simp [h2, validatedOf]
    · by_cases h3 : min r.2 (item.quantityOrdered - item.quantityReceived) ≤ 0
      · simp [h2, h3, validatedOf]
      · simp only [if_neg h2, if_neg h3]
        split <;> simp [validatedOf, h2, h3]

theorem validatedOf_cons (items : List POItem) (r : Nat × Int) (rest : List (Nat × Int)) :
    validatedOf items (r :: rest) = validatedOf items [r] ++ validatedOf items rest := by
  simp only [validatedOf]
  cases hfind : items.find? (fun i => i.id == r.1) with
  | none => simp [validatedOf]
  | some item =>
    dsimp only
    by_cases h2 : r.2 ≤ 0
    · simp [h2, validatedOf]
    · by_cases h3 : min r.2 (item.quantityOrdered - item.quantityReceived) ≤ 0
      · simp [h2, h3, validatedOf]
      · simp [h2, h3, validatedOf]

theorem receiveStep_validated (order : PurchaseOrder) :
    ∀ (receipts : List (Nat × Int)) (acc : ReceiveAcc),
      (receipts.foldl (receiveStep order) acc).validatedReceipts =
        acc.validatedReceipts ++ validatedOf order.items receipts := by
  intro receipts
  induction receipts with
  | nil => intro acc; simp [validatedOf]
  | cons r rest ih =>
    intro acc
    rw [List.foldl_cons, ih, receiveStep_validated_one,
      validatedOf_cons order.items r rest, List.append_assoc]

theorem validatedOf_bounds (items : List POItem) :
    ∀ (receipts : List (Nat × Int)) (r : Nat × Int), r ∈ validatedOf items receipts →
      ∃ i ∈ items, i.id = r.1 ∧ 0 < r.2 ∧ r.2 ≤ i.quantityOrdered - i.quantityReceived := by
  intro receipts
  induction receipts with
  | nil => intro r hr; cases hr
  | cons x rest ih =>
    intro r hr
    unfold validatedOf at hr
    revert hr
    cases hfind : items.find? (fun i => i.id == x.1) with
    | none => exact fun hr => ih r hr
    | some item =>
      dsimp only
      by_cases h2 : x.2 ≤ 0
      · rw [if_pos h2]; exact fun hr => ih r hr
      · rw [if_neg h2]
        by_cases h3 : min x.2 (item.quantityOrdered - item.quantityReceived) ≤ 0
        · rw [if_pos h3]; exact fun hr => ih r hr
        · rw [if_neg h3]
          intro hr
          rcases List.mem_cons.1 hr with rfl | hr'
          · refine ⟨item, List.mem_of_find?_eq_some hfind, ?_, by omega, by
              simp only []
              omega⟩
            have := List.find?_some hfind
            simpa using this
          · exact ih r hr'

theorem validatedOf_fst_sublist (items : List POItem) :
    ∀ receipts : List (Nat × Int),
      ((validatedOf items receipts).map Prod.fst).Sublist (receipts.map Prod.fst) := by
  intro receipts
  induction receipts with
  | nil => simp [validatedOf]
  | cons x rest ih =>
    unfold validatedOf
    cases hfind : items.find? (fun i => i.id == x.1) with
    | none => exact ih.cons x.1
    | some item =>
      dsimp only
      by_cases h2 : x.2 ≤ 0
      · rw [if_pos h2]; exact ih.cons x.1
      · rw [if_neg h2]
        by_cases h3 : min x.2 (item.quantityOrdered - item.quantityReceived) ≤ 0
        · rw [if_pos h3]; exact ih.cons x.1
        · rw [if_neg h3]
          simpa using ih.cons₂ x.1

/-- All PO line items of the state, in table order. -/
def poFlatItems (st : EngineState) : List POItem :=
  (st.purchaseOrders.map (·.items)).flatten

theorem mem_poFlatItems {st : EngineState} {po : PurchaseOrder} {i : POItem}
    (hpo : po ∈ st.purchaseOrders) (hi : i ∈ po.items) : i ∈ poFlatItems st :=
  List.mem_flatten.2 ⟨po.items, List.mem_map_of_mem _ hpo, hi⟩

theorem poFlatItems_congr {s1 s2 : EngineState}
    (h : s1.purchaseOrders = s2.purchaseOrders) : poFlatItems s1 = poFlatItems s2 := by
  unfold poFlatItems
  rw [h]

/-- The per-item transform applied by `updatePOItemReceived`. -/
def setReceived (x : Nat) (q : Int) (i : POItem) : POItem :=
  if i.id = x then { i with quantityReceived := q } else i

theorem setReceived_id (x : Nat) (q : Int) (i : POItem) : (setReceived x q i).id = i.id := by
  unfold setReceived
  split <;> rfl

theorem updatePOItemReceived_purchaseOrders (s : EngineState) (x : Nat) (q : Int) :
    (updatePOItemReceived s x q).purchaseOrders =
      s.purchaseOrders.map (fun po => { po with items := po.items.map (setReceived x q) }) :=
  rfl

theorem poFlatItems_update (s : EngineState) (x : Nat) (q : Int) :
    poFlatItems (updatePOItemReceived s x q) = (poFlatItems s).map (setReceived x q) := by
  unfold poFlatItems
  rw [updatePOItemReceived_purchaseOrders, List.map_flatten, List.map_map, List.map_map]
  rfl

theorem poFlatItems_update_ids (s : EngineState) (x : Nat) (q : Int) :
    (poFlatItems (updatePOItemReceived s x q)).map (·.id) = (poFlatItems s).map (·.id) := by
  rw [poFlatItems_update, List.map_map]
  apply List.map_congr_left
  intro i _
  exact setReceived_id x q i

theorem getPurchaseOrderItem_eq_some {st : EngineState} {x : Nat} {item : POItem}
    (h : getPurchaseOrderItem st x = some item) : item ∈ poFlatItems st ∧ item.id = x := by
  refine ⟨List.mem_of_find?_eq_some h, ?_⟩
  have := List.find?_some h
  simpa using this

/-- One step of the storage layer's receipt-application loop. -/
def applyReceipt (s : EngineState) (r : Nat × Int) : EngineState :=
  match getPurchaseOrderItem s r.1 with
  | some item =>
    if r.2 > 0 then updatePOItemReceived s r.1 (item.quantityReceived + r.2) else s
  | none => s

theorem receivePurchaseOrderItems_eq (st0 : EngineState) (purchaseOrderId : Nat)
    (itemReceipts : List (Nat × Int)) :
    receivePurchaseOrderItems st0 purchaseOrderId itemReceipts =
      (let st1 := itemReceipts.foldl applyReceipt st0
       match getPurchaseOrder st1 purchaseOrderId with
       | none => st1
       | some po =>
         let allReceived := po.items.all (fun i => decide (i.quantityOrdered ≤ i.quantityReceived))
         let someReceived := po.items.any (fun i => decide (0 < i.quantityReceived))
         let newStatus := if allReceived then POStatus.received
           else if someReceived then POStatus.partiallyReceived else po.status
         if newStatus ≠ po.status then setPOStatus st1 purchaseOrderId newStatus allReceived
         else st1) :=
  rfl

theorem applyReceipt_fold_invariant :
    ∀ (V : List (Nat × Int)) (s : EngineState),
      (V.map Prod.fst).Nodup →
      ((poFlatItems s).map (·.id)).Nodup →
      (∀ i ∈ poFlatItems s, i.quantityReceived ≤ i.quantityOrdered) →
      (∀ r ∈ V, ∀ i ∈ poFlatItems s, i.id = r.1 →
        r.2 ≤ i.quantityOrdered - i.quantityReceived) →
      ∀ i ∈ poFlatItems (V.foldl applyReceipt s), i.quantityReceived ≤ i.quantityOrdered := by
  intro V
  induction V with
  | nil => intro s _ _ hinv _; exact hinv
  | cons r V' ih =>
    intro s hnd hids hinv hbnd
    rw [List.foldl_cons]
    simp only [List.map_cons, List.nodup_cons] at hnd
    have hstep : ∀ i ∈ poFlatItems (applyReceipt s r),
        i.quantityReceived ≤ i.quantityOrdered := by
      unfold applyReceipt
      cases hfound : getPurchaseOrderItem s r.1 with
      | none => exact hinv
      | some item =>
        dsimp only
        by_cases hq : r.2 > 0
        · rw [if_pos hq]
          intro i' hi'
          rw [poFlatItems_update] at hi'
          rcases List.mem_map.1 hi' with ⟨i, hi, rfl⟩
          obtain ⟨hitem_mem, hitem_id⟩ := getPurchaseOrderItem_eq_some hfound
          unfold setReceived
          by_cases hid : i.id = r.1
          · rw [if_pos hid]
            have : i = item := List.inj_on_of_nodup_map hids hi hitem_mem (by rw [hid, hitem_id])
            subst this
            have := hbnd r (by simp) i hi hid
            simp only []
            omega
          · rw [if_neg hid]
            exact hinv i hi
        · rw [if_neg hq]
          exact hinv
    have hstep_ids : ((poFlatItems (applyReceipt s r)).map (·.id)).Nodup := by
      unfold applyReceipt
      cases hfound : getPurchaseOrderItem s r.1 with
      | none => exact hids
      | some item =>
        dsimp only
        by_cases hq : r.2 > 0
        · rw [if_pos hq, poFlatItems_update_ids]
          exact hids
        · rw [if_neg hq]
          exact hids
    have hstep_bnd : ∀ r' ∈ V', ∀ i ∈ poFlatItems (applyReceipt s r), i.id = r'.1 →
        r'.2 ≤ i.quantityOrdered - i.quantityReceived := by
      intro r' hr'
      have hne : r'.1 ≠ r.1 := by
        intro heq
        exact hnd.1 (heq ▸ List.mem_map_of_mem Prod.fst hr')
      unfold applyReceipt
      cases hfound : getPurchaseOrderItem s r.1 with
      | none => exact fun i hi hid => hbnd r' (List.mem_cons_of_mem _ hr') i hi hid
      | some item =>
        dsimp only
        by_cases hq : r.2 > 0
        · rw [if_pos hq]
          intro i' hi' hid'
          rw [poFlatItems_update] at hi'
          rcases List.mem_map.1 hi' with ⟨i, hi, heqi⟩
          have hid : i.id = r'.1 := by
            rw [← setReceived_id r.1 (item.quantityReceived + r.2) i, heqi]
            exact hid'
          have hii : i' = i := by
            rw [← heqi]
            unfold setReceived
            rw [if_neg (by rw [hid]; exact hne)]
          subst hii
          exact hbnd r' (List.mem_cons_of_mem _ hr') i' hi hid
        · rw [if_neg hq]
          exact fun i hi hid => hbnd r' (List.mem_cons_of_mem _ hr') i hi hid
    exact ih (applyReceipt s r) hnd.2 hstep_ids hstep hstep_bnd

theorem poFlatItems_setPOStatus (s : EngineState) (poId : Nat) (status : POStatus)
    (rd : Bool) : poFlatItems (setPOStatus s poId status rd) = poFlatItems s := by
  unfold poFlatItems setPOStatus
  dsimp only
  rw [List.map_map]
  congr 1
  apply List.map_congr_left
  intro po _
  dsimp only [Function.comp]
  split <;> rfl

theorem receivePurchaseOrderItems_invariant (s : EngineState) (poId : Nat)
    (V : List (Nat × Int))
    (hnd : (V.map Prod.fst).Nodup)
    (hids : ((poFlatItems s).map (·.id)).Nodup)
    (hinv : ∀ i ∈ poFlatItems s, i.quantityReceived ≤ i.quantityOrdered)
    (hbnd : ∀ r ∈ V, ∀ i ∈ poFlatItems s, i.id = r.1 →
      r.2 ≤ i.quantityOrdered - i.quantityReceived) :
    ∀ i ∈ poFlatItems (receivePurchaseOrderItems s poId V),
      i.quantityReceived ≤ i.quantityOrdered := by
  have hfold := applyReceipt_fold_invariant V s hnd hids hinv hbnd
  rw [receivePurchaseOrderItems_eq]
  dsimp only
  cases hpo : getPurchaseOrder (V.foldl applyReceipt s) poId with
  | none => exact hfold
  | some po =>
    dsimp only
    repeat' split
    all_goals
      first
        | exact hfold
        | (intro i hi
           rw [poFlatItems_setPOStatus] at hi
           exact hfold i hi)

theorem receiveFold_purchaseOrders (order : PurchaseOrder) (receipts : List (Nat × Int))
    (st : EngineState) :
    ((receipts.foldl (receiveStep order) (⟨st, [], []⟩ : ReceiveAcc)).st).purchaseOrders =
      st.purchaseOrders :=
  foldl_preserve (P := fun a : ReceiveAcc => a.st.purchaseOrders = st.purchaseOrders)
    (fun a r h => (receiveStep_purchaseOrders order a r).trans h) receipts _ rfl

theorem receiveItems_ok (st : EngineState) (poId : Nat) (receipts : List (Nat × Int))
    (order : PurchaseOrder)
    (hfound : getPurchaseOrder st poId = some order)
    (hc : order.status ≠ POStatus.cancelled)
    (hrec : order.status ≠ POStatus.received) :
    receiveItems st poId receipts =
      (.ok (receipts.foldl (receiveStep order) (⟨st, [], []⟩ : ReceiveAcc)).results,
       receivePurchaseOrderItems
         (receipts.foldl (receiveStep order) (⟨st, [], []⟩ : ReceiveAcc)).st poId
         (receipts.foldl (receiveStep order) (⟨st, [], []⟩ : ReceiveAcc)).validatedReceipts) := by
  unfold receiveItems
  rw [hfound]
  dsimp only
  rw [if_neg hc, if_neg hrec]

/-- Claim C7 (amended, proved): each receipt of a receive call is clamped to
`min(requested, quantityOrdered - quantityReceived)` against the PO snapshot
taken at the start of the call, with non-positive clamped amounts silently
skipped; consequently, provided each item id appears at most once in the
request, after the call every PO line still satisfies
`quantityReceived ≤ quantityOrdered` (the clamps are applied cumulatively
against that same snapshot, which is why duplicated item ids break the bound
— see the counterexample). -/
theorem receiveItems_clamped (st : EngineState) (poId : Nat) (receipts : List (Nat × Int))
    (order : PurchaseOrder)
    (hfound : getPurchaseOrder st poId = some order)
    (hc : order.status ≠ POStatus.cancelled)
    (hrec : order.status ≠ POStatus.received)
    (hnd : (receipts.map Prod.fst).Nodup)
    (hids : ((poFlatItems st).map (·.id)).Nodup)
    (hinv : ∀ i ∈ poFlatItems st, i.quantityReceived ≤ i.quantityOrdered) :
    (∀ r ∈ (receipts.foldl (receiveStep order) (⟨st, [], []⟩ : ReceiveAcc)).validatedReceipts,
      ∃ i ∈ order.items, i.id = r.1 ∧ 0 < r.2 ∧
        r.2 ≤ i.quantityOrdered - i.quantityReceived) ∧
    (∀ i ∈ poFlatItems ((receiveItems st poId receipts).2),
      i.quantityReceived ≤ i.quantityOrdered) := by
  have hval : (receipts.foldl (receiveStep order) (⟨st, [], []⟩ : ReceiveAcc)).validatedReceipts
      = validatedOf order.items receipts := by
    rw [receiveStep_validated]
    simp
  have hpos : poFlatItems
      ((receipts.foldl (receiveStep order) (⟨st, [], []⟩ : ReceiveAcc)).st) =
      poFlatItems st :=
    poFlatItems_congr (receiveFold_purchaseOrders order receipts st)
  constructor
  · rw [hval]
    intro r hr
    rcases validatedOf_bounds order.items receipts r hr with ⟨i, hi, hid, hq, hb⟩
    exact ⟨i, hi, hid, hq, hb⟩
  · rw [receiveItems_ok st poId receipts order hfound hc hrec]
    dsimp only
    intro i hi
    refine receivePurchaseOrderItems_invariant _ poId _ ?_ ?_ ?_ ?_ i hi
    · rw [hval]
      exact List.Nodup.sublist (validatedOf_fst_sublist order.items receipts) hnd
    · rw [hpos]
      exact hids
    · rw [hpos]
      exact hinv
    · rw [hval, hpos]
      intro r hr i' hi' hid'
      rcases validatedOf_bounds order.items receipts r hr with ⟨i0, hi0, hid0, hq0, hb0⟩
      have hordmem : order ∈ st.purchaseOrders := List.mem_of_find?_eq_some hfound
      have hi0' : i0 ∈ poFlatItems st := mem_poFlatItems hordmem hi0
      have heq : i' = i0 :=
        List.inj_on_of_nodup_map hids hi' hi0' (by rw [hid', hid0])
      rw [heq]
      exact hb0

/-- A PO line ordering 10 units with none yet received, for the C7 scenarios. -/
def c7item : POItem := ⟨1, 5, none, "M", 10, 0⟩

/-- The purchase order of the C7 scenarios. -/
def c7po : PurchaseOrder := ⟨1, "PO-2025-0001", .ordered, false, [c7item]⟩

/-- The stocked material the C7 purchase order replenishes. -/
def c7material : Material := ⟨5, none, "M", "simple", some 0, true, true, []⟩

/-- The state of the C7 scenarios. -/
def c7state : EngineState := ⟨[c7material], [], [], [], [c7po]⟩

/-- Claim C7 (counterexample): a receive call whose receipt list names the
same item id twice (8 + 8 against 10 ordered) clamps each pair against the
call-start snapshot and applies both, leaving `quantityReceived = 16 >
quantityOrdered = 10` — the claimed bound fails as stated. -/
theorem receiveItems_overreceive_counterexample :
    getPurchaseOrder ((receiveItems c7state 1 [(1, 8), (1, 8)]).2) 1 =
        some ⟨1, "PO-2025-0001", .received, true, [⟨1, 5, none, "M", 10, 16⟩]⟩ ∧
      ¬((16 : Int) ≤ 10) := by
  refine ⟨by decide, by decide⟩

/-- Witness for the amended C7: a single receipt of 15 against the
10-ordered line is clamped, leaving the line at 10 of 10. -/
theorem receiveItems_clamped_witness :
    getPurchaseOrder c7state 1 = some c7po ∧
      (∀ i ∈ poFlatItems ((receiveItems c7state 1 [(1, 15)]).2),
        i.quantityReceived ≤ i.quantityOrdered) :=
  ⟨by decide,
   (receiveItems_clamped c7state 1 [(1, 15)] c7po (by decide) (by decide) (by decide)
      (by decide) (by decide) (by decide)).2⟩

/-! ### Claim C8: the receiving state machine -/

theorem find?_map_pred {β : Type} (f : β → β) (p : β → Bool)
    (h : ∀ b, p (f b) = p b) :
    ∀ l : List β, (l.map f).find? p = (l.find? p).map f := by
  intro l
  induction l with
  | nil => rfl
  | cons x xs ih =>
    by_cases hp : p x = true
    · rw [List.map_cons, List.find?_cons_of_pos _ (by rw [h x]; exact hp),
        List.find?_cons_of_pos _ hp]
      rfl
    · rw [List.map_cons, List.find?_cons_of_neg _ (by rw [h x]; exact hp),
        List.find?_cons_of_neg _ hp]
      exact ih

theorem getPurchaseOrder_update (s : EngineState) (x : Nat) (q : Int) (poId : Nat) :
    getPurchaseOrder (updatePOItemReceived s x q) poId =
      (getPurchaseOrder s poId).map
        (fun po => { po with items := po.items.map (setReceived x q) }) := by
  unfold getPurchaseOrder
  rw [updatePOItemReceived_purchaseOrders]
  exact find?_map_pred (fun po => { po with items := po.items.map (setReceived x q) })
    (fun po => po.id == poId) (fun po => rfl) s.purchaseOrders

theorem getPurchaseOrder_setPOStatus (s : EngineState) (poId : Nat) (status : POStatus)
    (rd : Bool) :
    getPurchaseOrder (setPOStatus s poId status rd) poId =
      (getPurchaseOrder s poId).map
        (fun po => if po.id = poId then { po with status := status, receivedDateSet := rd }
          else po) := by
  unfold getPurchaseOrder setPOStatus
  dsimp only
  refine find?_map_pred _ _ (fun po => ?_) _
  split <;> rfl

theorem getPurchaseOrder_id {st : EngineState} {poId : Nat} {po : PurchaseOrder}
    (h : getPurchaseOrder st poId = some po) : po.id = poId := by
  have := List.find?_some h
  simpa using this

theorem applyReceipt_fold_status (poId : Nat) :
    ∀ (V : List (Nat × Int)) (s : EngineState) (po0 : PurchaseOrder),
      getPurchaseOrder s poId = some po0 →
      ∃ po1, getPurchaseOrder (V.foldl applyReceipt s) poId = some po1 ∧
        po1.status = po0.status ∧ po1.receivedDateSet = po0.receivedDateSet := by
  intro V
  induction V with
  | nil => intro s po0 h; exact ⟨po0, h, rfl, rfl⟩
  | cons r V' ih =>
    intro s po0 h
    rw [List.foldl_cons]
    have hstep : ∃ poa, getPurchaseOrder (applyReceipt s r) poId = some poa ∧
        poa.status = po0.status ∧ poa.receivedDateSet = po0.receivedDateSet := by
      unfold applyReceipt
      cases hfound : getPurchaseOrderItem s r.1 with
      | none => exact ⟨po0, h, rfl, rfl⟩
      | some item =>
        dsimp only
        by_cases hq : r.2 > 0
        · rw [if_pos hq, getPurchaseOrder_update, h]
          exact ⟨_, rfl, rfl, rfl⟩
        · rw [if_neg hq]
          exact ⟨po0, h, rfl, rfl⟩
    rcases hstep with ⟨poa, ha, hs, hr⟩
    rcases ih (applyReceipt s r) poa ha with ⟨po1, h1, h1s, h1r⟩
    exact ⟨po1, h1, h1s.trans hs, h1r.trans hr⟩

theorem statusUpdate_spec (st1 : EngineState) (poId : Nat) (po1 : PurchaseOrder)
    (newStatus : POStatus) (allB : Bool)
    (hpo1 : getPurchaseOrder st1 poId = some po1) (hid1 : po1.id = poId) :
    ∃ po', getPurchaseOrder
        (if newStatus ≠ po1.status then setPOStatus st1 poId newStatus allB else st1) poId =
        some po' ∧
      po'.items = po1.items ∧ po'.status = newStatus ∧
      (newStatus ≠ po1.status → po'.receivedDateSet = allB) := by
  by_cases hchg : newStatus ≠ po1.status
  · rw [if_pos hchg, getPurchaseOrder_setPOStatus, hpo1]
    refine ⟨{ po1 with status := newStatus, receivedDateSet := allB }, ?_, rfl, rfl,
      fun _ => rfl⟩
    simp [hid1]
  · rw [if_neg hchg]
    have heq : newStatus = po1.status := not_ne_iff.1 hchg
    exact ⟨po1, hpo1, rfl, heq.symm, fun h => absurd h hchg⟩

/-- Claim C8 (confirmed): a receive call on a cancelled or already-received
purchase order is rejected with the state unchanged; otherwise the resulting
status is `received` (stamping `receivedDate`) exactly when every line's
`quantityReceived` has reached `quantityOrdered`, else `partially_received`
when any line has received anything, else unchanged — and the status never
regresses through a receiving step. -/
theorem receiveItems_status_machine (st : EngineState) (poId : Nat)
    (receipts : List (Nat × Int)) (order : PurchaseOrder)
    (hfound : getPurchaseOrder st poId = some order) :
    (order.status = POStatus.cancelled →
      receiveItems st poId receipts = (.error .cancelledOrder, st)) ∧
    (order.status ≠ POStatus.cancelled → order.status = POStatus.received →
      receiveItems st poId receipts = (.error .alreadyReceived, st)) ∧
    (order.status ≠ POStatus.cancelled → order.status ≠ POStatus.received →
      ∃ po', getPurchaseOrder ((receiveItems st poId receipts).2) poId = some po' ∧
        (po'.status = POStatus.received ↔
          ∀ i ∈ po'.items, i.quantityOrdered ≤ i.quantityReceived) ∧
        (po'.status = POStatus.received → po'.receivedDateSet = true) ∧
        (po'.status ≠ POStatus.received →
          (∃ i ∈ po'.items, 0 < i.quantityReceived) →
          po'.status = POStatus.partiallyReceived) ∧
        (po'.status ≠ POStatus.received →
          (¬ ∃ i ∈ po'.items, 0 < i.quantityReceived) → po'.status = order.status) ∧
        statusRank order.status ≤ statusRank po'.status) := by
  refine ⟨?_, ?_, ?_⟩
  · intro hcanc
    unfold receiveItems
    rw [hfound]
    dsimp only
    rw [if_pos hcanc]
  · intro hcanc hrecv
    unfold receiveItems
    rw [hfound]
    dsimp only
    rw [if_neg hcanc, if_pos hrecv]
  · intro hcanc hrecv
    rw [receiveItems_ok st poId receipts order hfound hcanc hrecv]
    dsimp only
    have hfound' : getPurchaseOrder
        ((receipts.foldl (receiveStep order) (⟨st, [], []⟩ : ReceiveAcc)).st) poId =
        some order := by
      unfold getPurchaseOrder
      rw [receiveFold_purchaseOrders]
      exact hfound
    rw [receivePurchaseOrderItems_eq]
    dsimp only
    obtain ⟨po1, hpo1, hst1, hrd1⟩ := applyReceipt_fold_status poId _ _ order hfound'
    rw [hpo1]
    dsimp only
    have hid1 : po1.id = poId := getPurchaseOrder_id hpo1
    have hrank : statusRank order.status ≤ 2 := by
      cases horder : order.status <;> simp_all [statusRank]
    obtain ⟨po', hpo', hitems, hstat, hrdset⟩ := statusUpdate_spec _ poId po1 _ _ hpo1 hid1
    refine ⟨po', hpo', ?_⟩
    by_cases hall : (po1.items.all fun i => decide (i.quantityOrdered ≤ i.quantityReceived))
        = true
    · rw [if_pos hall] at hstat
      have hallP : ∀ i ∈ po'.items, i.quantityOrdered ≤ i.quantityReceived := by
        rw [hitems]
        intro i hi
        simpa using List.all_eq_true.1 hall i hi
      have hns : (if
          (po1.items.all fun i => decide (i.quantityOrdered ≤ i.quantityReceived)) = true then
            POStatus.received
          else if (po1.items.any fun i => decide (0 < i.quantityReceived)) = true then
            POStatus.partiallyReceived
          else po1.status) ≠ po1.status := by
        rw [if_pos hall, hst1]
        exact fun h => hrecv h.symm
      refine ⟨⟨fun _ => hallP, fun _ => hstat⟩, ?_, ?_, ?_, ?_⟩
      · intro _
        rw [hrdset hns]
        exact hall
      · intro hne; exact absurd hstat hne
      · intro hne; exact absurd hstat hne
      · rw [hstat]
        exact le_trans hrank (by simp [statusRank])
    · have hallF : ¬ ∀ i ∈ po'.items, i.quantityOrdered ≤ i.quantityReceived := by
        rw [hitems]
        intro hP
        exact hall (List.all_eq_true.2 fun i hi => by simpa using hP i hi)
      rw [if_neg hall] at hstat
      by_cases hsome : (po1.items.any fun i => decide (0 < i.quantityReceived)) = true
      · rw [if_pos hsome] at hstat
        have hnr : po'.status ≠ POStatus.received := by
          rw [hstat]
          intro h; cases h
        have hsomeP : ∃ i ∈ po'.items, 0 < i.quantityReceived := by
          rw [hitems]
          rcases List.any_eq_true.1 hsome with ⟨i, hi, hd⟩
          exact ⟨i, hi, by simpa using hd⟩
        refine ⟨⟨fun h => absurd h hnr, fun hP => absurd hP hallF⟩, ?_, ?_, ?_, ?_⟩
        · intro h; exact absurd h hnr
        · intro _ _; exact hstat
        · intro _ hno; exact absurd hsomeP hno
        · rw [hstat]
          simpa [statusRank] using hrank
      · rw [if_neg hsome] at hstat
        have hstat' : po'.status = order.status := hstat.trans hst1
        have hnr : po'.status ≠ POStatus.received := by
          rw [hstat']
          exact hrecv
        have hsomeF : ¬ ∃ i ∈ po'.items, 0 < i.quantityReceived := by
          rw [hitems]
          intro hP
          rcases hP with ⟨i, hi, hq⟩
          exact hsome (List.any_eq_true.2 ⟨i, hi, by simpa using hq⟩)
        refine ⟨⟨fun h => absurd h hnr, fun hP => absurd hP hallF⟩, ?_, ?_, ?_, ?_⟩
        · intro h; exact absurd h hnr
        · intro _ hP; exact absurd hP hsomeF
        · intro _ _; exact hstat'
        · rw [hstat']

/-- Witness for C8: receiving 6 of the 10 ordered units advances the ordered
purchase order, and the resulting status satisfies the recomputation
contract. -/
theorem receiveItems_status_machine_witness :
    getPurchaseOrder c7state 1 = some c7po ∧
      c7po.status ≠ POStatus.cancelled ∧ c7po.status ≠ POStatus.received ∧
      (∃ po', getPurchaseOrder ((receiveItems c7state 1 [(1, 6)]).2) 1 = some po' ∧
        (po'.status = POStatus.received ↔
          ∀ i ∈ po'.items, i.quantityOrdered ≤ i.quantityReceived) ∧
        (po'.status = POStatus.received → po'.receivedDateSet = true) ∧
        (po'.status ≠ POStatus.received →
          (∃ i ∈ po'.items, 0 < i.quantityReceived) →
          po'.status = POStatus.partiallyReceived) ∧
        (po'.status ≠ POStatus.received →
          (¬ ∃ i ∈ po'.items, 0 < i.quantityReceived) → po'.status = c7po.status) ∧
        statusRank c7po.status ≤ statusRank po'.status) :=
  ⟨by decide, by decide, by decide,
   (receiveItems_status_machine c7state 1 [(1, 6)] c7po (by decide)).2.2
     (by decide) (by decide)⟩

end Framed
